import Mathlib

/-
Shallow embedding of the clinic no-show simulation engine (src/api2/app.py).

Modelling conventions:
* Python floats are modelled as exact rationals (ℚ).  `round(x, 3)` is
  modelled by `round3`, which rounds half to even like Python's `round`.
* Wall-clock timestamps (`now_iso`, log `ts`) are abstract integers counted
  in hours; "the trailing 12 wall-clock hours" becomes `now - 12 ≤ ts`.
* Randomness (`RAND.random()`) is modelled by an explicit list of draws
  carried in the engine state and consumed in program order.
* The Python in-memory `STATE` dict becomes the `EngineState` structure.
  The id-keyed, insertion-ordered dicts for appointments and strategies
  become insertion-ordered lists; lookups take the first element with the
  given id, updates rewrite every element with the given id (these agree
  with dict semantics whenever ids are unique, which theorems assume where
  it matters).
* Calendar dates are already resolved to day indices (the Python helpers
  `day_index_from_date` / `iso_date_for_day` are inverse bijections between
  dates and indices, so requests carry the resolved index).
-/

namespace ClinicSim

/-! ## Basic enumerations -/

inductive CommKind
  | sms
  | call
deriving DecidableEq

inductive Variant
  | A
  | B
deriving DecidableEq

inductive Outcome
  | unknown
  | attended
  | no_show
deriving DecidableEq

inductive ApiError
  | badRequest
  | notFound
deriving DecidableEq

/-! ## Constants (app.py lines 18-30) -/

def SMS_FACTOR : ℚ := 90 / 100
def CALL_FACTOR : ℚ := 80 / 100
def CONFIRM_12H_FACTOR : ℚ := 60 / 100
def SILENCE_LIFT : ℚ := 5 / 100
def PRED_THRESHOLD : ℚ := 50 / 100
def REPLY_PROB_YES : ℚ := 35 / 100
def REPLY_PROB_NO : ℚ := 10 / 100

def BUCKETS : List (ℚ × ℚ) :=
  [(0, 2/10), (2/10, 4/10), (4/10, 6/10), (6/10, 8/10), (8/10, 1)]

/-! ## Numeric utilities -/

/-- `clamp01` from app.py: clamps into `[0.01, 0.99]`. -/
def clamp01 (x : ℚ) : ℚ := max (1/100) (min (99/100) x)

/-- Round to the nearest integer, ties to the even integer
(Python's banker rounding, used by `round`). -/
def roundHalfEven (q : ℚ) : ℤ :=
  if q - ⌊q⌋ < 1/2 then ⌊q⌋
  else if 1/2 < q - ⌊q⌋ then ⌊q⌋ + 1
  else if ⌊q⌋ % 2 = 0 then ⌊q⌋ else ⌊q⌋ + 1

/-- Python's `round(x, 3)`. -/
def round3 (q : ℚ) : ℚ := (roundHalfEven (1000 * q) : ℚ) / 1000

/-- `predicted_outcome_from_risk`: "dna" iff risk at or above the 0.50 threshold. -/
def predicted_outcome_from_risk (p : ℚ) : String :=
  if PRED_THRESHOLD ≤ p then "dna" else "attend"

/-! ## Feature vectors and the local heuristic risk provider -/

structure Features where
  age : ℤ
  prev_no_shows : ℕ
  distance_km : ℚ
  slot_hour : ℤ
  new_patient : Bool
deriving DecidableEq

/-- `heuristic_predict` from app.py (the local fallback of the risk provider). -/
def heuristic_predict (f : Features) : ℚ :=
  let base : ℚ := 15/100 + (5/100) * f.prev_no_shows + (1/100) * f.distance_km
  let base := if f.new_patient then base + 6/100 else base
  let base := if f.slot_hour < 9 ∨ 16 < f.slot_hour then base + 3/100 else base
  round3 (clamp01 base)

/-! ## Entities -/

structure Patient where
  name : String
  age : ℤ
deriving DecidableEq

structure CommRecord where
  ts : ℤ
  kind : CommKind
  variant : Option Variant
  note : String
deriving DecidableEq

structure Appointment where
  id : String
  patient : Patient
  sched_time : ℤ
  dayIndex : ℤ
  static_risk : ℚ
  live_adjusted_risk : ℚ
  predicted_outcome_static : String
  predicted_outcome_live : String
  strategy_variant : Option Variant
  strategy_applied_ids : List String
  comms_history : List CommRecord
  outcome : Outcome
  live_adjustment_applied : Bool
deriving DecidableEq

structure Segment where
  age_min : Option ℤ
  age_max : Option ℤ
  risk_min : Option ℚ
  risk_max : Option ℚ
deriving DecidableEq

structure VariantCfg where
  kind : CommKind
  days_of_action : List ℤ
deriving DecidableEq

structure ABConfig where
  split : ℚ
  A : VariantCfg
  B : VariantCfg
deriving DecidableEq

structure Strategy where
  id : String
  name : String
  is_default : Bool
  segment : Option Segment
  ab : ABConfig
deriving DecidableEq

structure DeployRec where
  id : String
  target_day : ℤ
  strategy_ids : List String
deriving DecidableEq

structure LogEntry where
  ts : ℤ
  send_day_index : ℤ
  appointment_day_index : ℤ
  appointment_id : String
  patient_name : String
  kind : String
  variant : Option Variant
  message : String
  reply : Option String
  extra_outcome : Option Outcome
deriving DecidableEq

structure Intraday where
  dayIndex : Option ℤ
  order : List String
  next_idx : ℕ
  last_processed_id : Option String
deriving DecidableEq

structure EngineState where
  todayIndex : ℤ
  appointments : List Appointment
  strategies : List Strategy
  deployments : List DeployRec
  logs : List LogEntry
  intraday : Intraday
  same_day_comms_done : List ℤ
  draws : List ℚ
deriving DecidableEq

/-! ## State helpers -/

def findAppt (s : EngineState) (aid : String) : Option Appointment :=
  s.appointments.find? (fun a => a.id == aid)

def findStrategy (s : EngineState) (sid : String) : Option Strategy :=
  s.strategies.find? (fun st => st.id == sid)

def updateAppt (s : EngineState) (aid : String) (f : Appointment → Appointment) :
    EngineState :=
  { s with appointments := s.appointments.map (fun a => if a.id == aid then f a else a) }

/-- Consume the next pseudo-random draw (models `RAND.random()`). -/
def takeDraw (s : EngineState) : ℚ × EngineState :=
  match s.draws with
  | [] => (0, s)
  | d :: ds => (d, { s with draws := ds })

def kindStr : CommKind → String
  | .sms => "sms"
  | .call => "call"

def kindUpper : CommKind → String
  | .sms => "SMS"
  | .call => "CALL"

def commFactor : CommKind → ℚ
  | .sms => SMS_FACTOR
  | .call => CALL_FACTOR

/-- `log_event` from app.py: appends one entry; the appointment-day field is
looked up from the store, falling back to the send day. -/
def log_event (now send_day_index : ℤ) (appointment_id patient_name : String)
    (kind : String) (variant : Option Variant) (message : String)
    (reply : Option String) (extra_outcome : Option Outcome)
    (s : EngineState) : EngineState :=
  let appointment_day_index :=
    match findAppt s appointment_id with
    | some a => a.dayIndex
    | none => send_day_index
  { s with logs := s.logs ++
      [{ ts := now, send_day_index := send_day_index,
         appointment_day_index := appointment_day_index,
         appointment_id := appointment_id, patient_name := patient_name,
         kind := kind, variant := variant, message := message,
         reply := reply, extra_outcome := extra_outcome }] }

/-! ## Summaries: the fixed live-risk histogram -/

/-- The `count` column of `_dist_from_values`: per fixed bucket,
the number of values `v` with `lo <= v < hi`. -/
def dist_counts (values : List ℚ) : List ℕ :=
  BUCKETS.map (fun b => values.countP (fun v => decide (b.1 ≤ v) && decide (v < b.2)))

/-! ## Segmentation and deployment (app.py lines 260-299) -/

/-- `in_segment`: the optional age range AND the optional static-risk range. -/
def in_segment (appt : Appointment) (strat : Strategy) : Bool :=
  match strat.segment with
  | none => true
  | some seg =>
    let age := appt.patient.age
    let r := appt.static_risk
    let ok_age :=
      (match seg.age_min with | none => true | some m => decide (m ≤ age)) &&
      (match seg.age_max with | none => true | some m => decide (age ≤ m))
    let ok_risk :=
      (match seg.risk_min with | none => true | some m => decide (m ≤ r)) &&
      (match seg.risk_max with | none => true | some m => decide (r ≤ m))
    ok_age && ok_risk

/-- `pick_variant`: variant A iff the draw is below the split probability. -/
def pick_variant (split : ℚ) (r : ℚ) : Variant :=
  if r < split then .A else .B

/-- One assignment step of `deploy`: draw, set the variant, append the
strategy id to the applied list if absent. -/
def deployApplyOne (strat : Strategy) (s : EngineState) (aid : String) : EngineState :=
  let (r, s) := takeDraw s
  updateAppt s aid (fun a =>
    { a with
      strategy_variant := some (pick_variant strat.ab.split r),
      strategy_applied_ids :=
        if strat.id ∈ a.strategy_applied_ids then a.strategy_applied_ids
        else a.strategy_applied_ids ++ [strat.id] })

/-- The inner loop of `deploy` for one non-default strategy: every target-day
appointment in the segment is assigned and recorded as matched. -/
def deployNonDefaultPass (target : ℤ) (strat : Strategy)
    (sm : EngineState × List String) : EngineState × List String :=
  let s := sm.1
  let ids := (s.appointments.filter
      (fun a => a.dayIndex == target && in_segment a strat)).map (fun a => a.id)
  (ids.foldl (deployApplyOne strat) s, sm.2 ++ ids)

/-- The default-strategy loop of `deploy`: every target-day appointment not in
the matched set is assigned the default strategy's variant. -/
def deployDefaultPass (target : ℤ) (strat : Strategy) (matched : List String)
    (s : EngineState) : EngineState :=
  let ids := (s.appointments.filter
      (fun a => a.dayIndex == target && !(matched.contains a.id))).map (fun a => a.id)
  ids.foldl (deployApplyOne strat) s

/-- `deploy` from app.py: unknown strategy ids are silently dropped, every
non-default chosen strategy is applied in order to all matching target-day
appointments, and the (first) default chosen strategy to the unmatched ones;
finally a deployment record is stored. -/
def deploy (dep_id : String) (target : ℤ) (strategy_ids : List String)
    (s : EngineState) : EngineState × DeployRec :=
  let chosen := strategy_ids.filterMap (findStrategy s)
  let sm := (chosen.filter (fun c => !c.is_default)).foldl
      (fun sm st => deployNonDefaultPass target st sm) (s, [])
  let s2 :=
    match chosen.find? (fun c => c.is_default) with
    | some d => deployDefaultPass target d sm.2 sm.1
    | none => sm.1
  let dep_rec : DeployRec :=
    { id := dep_id, target_day := target, strategy_ids := chosen.map (fun c => c.id) }
  ({ s2 with deployments := s2.deployments ++ [dep_rec] }, dep_rec)

/-! ## Communications and the risk pipeline (app.py lines 227-254, 305-369) -/

/-- `apply_comms_effect`: multiply live risk by the comm factor, re-clamp,
round, and recompute the live predicted outcome. -/
def apply_comms_effect (appt : Appointment) (kind : CommKind) : Appointment :=
  let live := round3 (clamp01 (appt.live_adjusted_risk * commFactor kind))
  { appt with live_adjusted_risk := live,
              predicted_outcome_live := predicted_outcome_from_risk live }

/-- The per-strategy body of `run_same_day_comms_once`: if the active variant
has offset 0, append the comm to the history, apply the comm effect, and log. -/
def fireSameDayForStrategy (now t : ℤ) (aid : String)
    (s : EngineState) (sid : String) : EngineState :=
  match findStrategy s sid, findAppt s aid with
  | some strat, some appt =>
    let v := match appt.strategy_variant.getD .A with
      | .A => strat.ab.A
      | .B => strat.ab.B
    if (0:ℤ) ∈ v.days_of_action then
      let kind := v.kind
      let s := updateAppt s aid (fun a =>
        apply_comms_effect
          { a with comms_history := a.comms_history ++
              [{ ts := now, kind := kind, variant := a.strategy_variant,
                 note := "scheduled" }] } kind)
      log_event now t aid appt.patient.name (kindStr kind) appt.strategy_variant
        (kindUpper kind ++ " sent (offset 0)") none none s
    else s
  | _, _ => s

/-- The per-appointment body of `run_same_day_comms_once`: iterate over the
appointment's applied strategies. -/
def sameDayApptStep (now t : ℤ) (s : EngineState) (aid : String) : EngineState :=
  match findAppt s aid with
  | some appt => appt.strategy_applied_ids.foldl (fireSameDayForStrategy now t aid) s
  | none => s

/-- `run_same_day_comms_once`: guarded by the per-day done-set; fires every
offset-0 variant for today's appointments, then records today as done. -/
def run_same_day_comms_once (now : ℤ) (s : EngineState) : EngineState :=
  let t := s.todayIndex
  if t ∈ s.same_day_comms_done then s
  else
    let ids := (s.appointments.filter (fun a => a.dayIndex == t)).map (fun a => a.id)
    let s := ids.foldl (sameDayApptStep now t) s
    { s with same_day_comms_done := s.same_day_comms_done ++ [t] }

/-- The per-strategy body of `run_scheduled_comms_for_day`: for every configured
offset equal to `t - dayIndex`, fire the comm, log it, and simulate a reply. -/
def fireScheduled (now t : ℤ) (aid : String) (s : EngineState) (sid : String) :
    EngineState :=
  match findStrategy s sid, findAppt s aid with
  | some strat, some appt =>
    let v := match appt.strategy_variant.getD .A with
      | .A => strat.ab.A
      | .B => strat.ab.B
    v.days_of_action.foldl (fun s offset =>
      if offset == t - appt.dayIndex then
        let kind := v.kind
        let s := updateAppt s aid (fun a =>
          apply_comms_effect
            { a with comms_history := a.comms_history ++
                [{ ts := now, kind := kind, variant := a.strategy_variant,
                   note := "scheduled" }] } kind)
        let s := log_event now t aid appt.patient.name (kindStr kind)
          appt.strategy_variant
          (kindUpper kind ++ " sent (offset " ++ toString offset ++ ")") none none s
        let (r, s) := takeDraw s
        if r < REPLY_PROB_YES then
          log_event now t aid appt.patient.name "reply" appt.strategy_variant
            "reply received" (some "yes") none s
        else if r < REPLY_PROB_YES + REPLY_PROB_NO then
          log_event now t aid appt.patient.name "reply" appt.strategy_variant
            "reply received" (some "no") none s
        else s
      else s) s
  | _, _ => s

/-- The per-appointment body of `run_scheduled_comms_for_day`. -/
def scheduledApptStep (now t : ℤ) (s : EngineState) (aid : String) : EngineState :=
  match findAppt s aid with
  | some appt => appt.strategy_applied_ids.foldl (fireScheduled now t aid) s
  | none => s

/-- `run_scheduled_comms_for_day`: sweep over all appointments and all their
applied strategies. -/
def run_scheduled_comms_for_day (now t : ℤ) (s : EngineState) : EngineState :=
  (s.appointments.map (fun a => a.id)).foldl (scheduledApptStep now t) s

/-- The ids that received an sms/call on day `t` (the `sent_ids` set of
`end_of_day_fill_no_reply_eod`, determinized in first-occurrence order). -/
def sent_ids_for_day (t : ℤ) (s : EngineState) : List String :=
  ((s.logs.filter (fun l =>
      l.send_day_index == t && (l.kind == "sms" || l.kind == "call"))).map
      (fun l => l.appointment_id)).dedup

/-- The per-id body of `end_of_day_fill_no_reply_eod`: append a `no_reply_eod`
reply unless some reply for that appointment was already logged on day `t`. -/
def eodStep (now t : ℤ) (s : EngineState) (aid : String) : EngineState :=
  let any_reply := s.logs.any (fun l =>
    l.send_day_index == t && l.appointment_id == aid && l.kind == "reply")
  if any_reply then s
  else
    match findAppt s aid with
    | some appt =>
      log_event now t aid appt.patient.name "reply" appt.strategy_variant
        "no reply by end of day" (some "no_reply_eod") none s
    | none => s

/-- `end_of_day_fill_no_reply_eod`: for every appointment that got an sms/call
on day `t` with no reply logged for day `t`, append a `no_reply_eod` reply. -/
def end_of_day_fill_no_reply_eod (now t : ℤ) (s : EngineState) : EngineState :=
  (sent_ids_for_day t s).foldl (eodStep now t) s

/-- The per-appointment body of `compute_live_adjustments_for_today`:
confirmation multiplier on a recent "yes" reply, else silence lift when no
reply was ever logged and live risk exceeds 0.4; sets the idempotence flag. -/
def adjustOne (now t : ℤ) (logs : List LogEntry) (appt : Appointment) : Appointment :=
  if appt.dayIndex != t || appt.live_adjustment_applied then appt
  else
    let live := appt.live_adjusted_risk
    let confirmed := logs.any (fun l =>
      l.appointment_id == appt.id && l.kind == "reply" && l.reply == some "yes" &&
        decide (now - 12 ≤ l.ts))
    let live :=
      if confirmed then round3 (clamp01 (live * CONFIRM_12H_FACTOR))
      else
        let any_reply_recent := logs.any (fun l =>
          l.appointment_id == appt.id && l.kind == "reply" &&
            (l.reply == some "yes" || l.reply == some "no"))
        if !any_reply_recent && decide ((4:ℚ)/10 < live) then
          round3 (clamp01 (live + SILENCE_LIFT))
        else live
    { appt with live_adjusted_risk := live,
                predicted_outcome_live := predicted_outcome_from_risk live,
                live_adjustment_applied := true }

/-- Stable insertion by scheduled time (models Python's stable list sort keyed
on the appointment datetime). -/
def insertSched (a : Appointment) : List Appointment → List Appointment
  | [] => [a]
  | b :: l => if a.sched_time ≤ b.sched_time then a :: b :: l else b :: insertSched a l

def sortBySched : List Appointment → List Appointment
  | [] => []
  | a :: l => insertSched a (sortBySched l)

/-- `init_intraday_for_today`: build today's ordered queue unless one already
exists for today. -/
def init_intraday_for_today (s : EngineState) : EngineState :=
  let t := s.todayIndex
  if s.intraday.dayIndex == some t && !s.intraday.order.isEmpty then s
  else
    let appts := sortBySched (s.appointments.filter (fun a => a.dayIndex == t))
    { s with intraday :=
        { dayIndex := some t, order := appts.map (fun a => a.id),
          next_idx := 0, last_processed_id := none } }

/-- `compute_live_adjustments_for_today`: same-day comms once, then the flagged
per-appointment adjustment, then intraday initialization. -/
def compute_live_adjustments_for_today (now : ℤ) (s : EngineState) : EngineState :=
  let t := s.todayIndex
  let s := run_same_day_comms_once now s
  let s := { s with appointments := s.appointments.map (adjustOne now t s.logs) }
  init_intraday_for_today s

/-- The per-appointment body of `settle_outcomes_for_day`. -/
def settleStep (d : ℤ) (s : EngineState) (aid : String) : EngineState :=
  match findAppt s aid with
  | some a =>
    if a.dayIndex == d && a.outcome == .unknown then
      let (r, s) := takeDraw s
      updateAppt s aid (fun b =>
        { b with outcome := if r < b.live_adjusted_risk then .no_show else .attended })
    else s
  | none => s

/-- `settle_outcomes_for_day`: Bernoulli-settle every still-unknown appointment
of the given day from its live risk. -/
def settle_outcomes_for_day (d : ℤ) (s : EngineState) : EngineState :=
  (s.appointments.map (fun a => a.id)).foldl (settleStep d) s

/-! ## Routes (app.py lines 668-890) -/

/-- The patch payload of `PATCH /strategies/{id}`; `segment = some none`
models an explicit `"segment": null`. -/
structure StrategyPatch where
  name : Option String
  is_default : Option Bool
  segment : Option (Option Segment)
  ab_split : Option ℚ
  ab_A_kind : Option CommKind
  ab_A_days : Option (List ℤ)
  ab_B_kind : Option CommKind
  ab_B_days : Option (List ℤ)
deriving DecidableEq

def applyStrategyPatch (p : StrategyPatch) (st : Strategy) : Strategy :=
  let st := match p.name with | some n => { st with name := n } | none => st
  let st := match p.is_default with | some b => { st with is_default := b } | none => st
  let st := match p.segment with | some sg => { st with segment := sg } | none => st
  let st := match p.ab_split with
    | some sp => { st with ab := { st.ab with split := sp } } | none => st
  let st := match p.ab_A_kind with
    | some k => { st with ab := { st.ab with A := { st.ab.A with kind := k } } }
    | none => st
  let st := match p.ab_A_days with
    | some ds => { st with ab := { st.ab with A := { st.ab.A with days_of_action := ds } } }
    | none => st
  let st := match p.ab_B_kind with
    | some k => { st with ab := { st.ab with B := { st.ab.B with kind := k } } }
    | none => st
  let st := match p.ab_B_days with
    | some ds => { st with ab := { st.ab with B := { st.ab.B with days_of_action := ds } } }
    | none => st
  st

/-- `PATCH /strategies/{id}`: 404 on an unknown id, else partial update. -/
def strategies_patch (sid : String) (p : StrategyPatch) (s : EngineState) :
    Except ApiError EngineState :=
  match findStrategy s sid with
  | none => .error .notFound
  | some _ =>
    .ok { s with strategies :=
        s.strategies.map (fun st => if st.id == sid then applyStrategyPatch p st else st) }

structure DeployReq where
  target_day : ℤ
  strategy_ids : List String
deriving DecidableEq

/-- `POST /deploy`: 400 on an empty strategy list or when the largest offset
magnitude of any KNOWN requested strategy exceeds the days remaining until the
target day; unknown strategy ids are skipped, not rejected. -/
def deploy_route (dep_id : String) (req : DeployReq) (s : EngineState) :
    Except ApiError (EngineState × DeployRec) :=
  if req.strategy_ids.isEmpty then .error .badRequest
  else
    let max_window := req.strategy_ids.foldl (fun mw sid =>
      match findStrategy s sid with
      | none => mw
      | some st =>
        let mx := ((st.ab.A.days_of_action ++ st.ab.B.days_of_action).map
            Int.natAbs).foldl max 0
        if mw < mx then mx else mw) 0
    if (req.target_day - s.todayIndex) < (max_window : ℤ) then .error .badRequest
    else .ok (deploy dep_id req.target_day req.strategy_ids s)

/-- `POST /actions/send_sms`: 404 on an unknown appointment; else append the
manual comm to the history, log it, simulate a reply, and trigger the
live-adjustment recompute.  No comm factor is applied to the risk. -/
def action_send_sms (now : ℤ) (appt_id template : String) (s : EngineState) :
    Except ApiError EngineState :=
  match findAppt s appt_id with
  | none => .error .notFound
  | some appt =>
    let s := updateAppt s appt_id (fun a =>
      { a with comms_history := a.comms_history ++
          [{ ts := now, kind := .sms, variant := a.strategy_variant,
             note := "manual_send" }] })
    let s := log_event now s.todayIndex appt_id appt.patient.name "sms"
      appt.strategy_variant template none none s
    let (r, s) := takeDraw s
    let s :=
      if r < REPLY_PROB_YES then
        log_event now s.todayIndex appt_id appt.patient.name "reply"
          appt.strategy_variant "reply received" (some "yes") none s
      else if r < REPLY_PROB_YES + REPLY_PROB_NO then
        log_event now s.todayIndex appt_id appt.patient.name "reply"
          appt.strategy_variant "reply received" (some "no") none s
      else s
    .ok (compute_live_adjustments_for_today now s)

/-- `POST /actions/call_now`: 404 on an unknown appointment; else append the
manual comm, log it, and trigger the recompute.  No reply simulation and no
comm factor. -/
def action_call_now (now : ℤ) (appt_id : String) (s : EngineState) :
    Except ApiError EngineState :=
  match findAppt s appt_id with
  | none => .error .notFound
  | some appt =>
    let s := updateAppt s appt_id (fun a =>
      { a with comms_history := a.comms_history ++
          [{ ts := now, kind := .call, variant := a.strategy_variant,
             note := "manual_call" }] })
    let s := log_event now s.todayIndex appt_id appt.patient.name "call"
      appt.strategy_variant "call logged" none none s
    .ok (compute_live_adjustments_for_today now s)

/-- `POST /simulate/advance` request body; the `toDate` field is already
resolved to a day index via `day_index_from_date`. -/
structure AdvanceReq where
  toDate : Option ℤ
  toDayIndex : Option ℤ
deriving DecidableEq

/-- `POST /simulate/advance`: only `today + 1` is a legal target; on success,
run the scheduled sweep, the end-of-day fill, and settlement for the old day,
increment the clock, and recompute live adjustments for the new day. -/
def simulate_advance (now : ℤ) (req : AdvanceReq) (s : EngineState) :
    Except ApiError EngineState :=
  let start := s.todayIndex
  let expected := start + 1
  if req.toDate.any (fun v => v != expected) then .error .badRequest
  else if req.toDayIndex.any (fun v => v != expected) then .error .badRequest
  else
    let t := start
    let s := run_scheduled_comms_for_day now t s
    let s := end_of_day_fill_no_reply_eod now t s
    let s := settle_outcomes_for_day t s
    let s := { s with todayIndex := t + 1 }
    .ok (compute_live_adjustments_for_today now s)

/-- The queue-pop body of `POST /simulate/tick_today`, run on the
already-initialized intraday state: pop the next queued appointment, settle it
if still unknown (and log the outcome event), and advance the cursor. -/
def tickProcess (now t : ℤ) (s : EngineState) : EngineState × Option String :=
  let intr := s.intraday
  let idx := intr.next_idx
  let total := intr.order.length
  if h : idx < total then
    let aid := intr.order.get ⟨idx, h⟩
    match findAppt s aid with
    | some a =>
      let s4 :=
        if a.outcome == .unknown then
          let r := (takeDraw s).1
          let s2 := (takeDraw s).2
          let s3 := updateAppt s2 aid (fun b =>
            { b with outcome :=
                if r < b.live_adjusted_risk then .no_show else .attended })
          match findAppt s3 aid with
          | some a2 =>
            log_event now t aid a2.patient.name "outcome" a2.strategy_variant
              "finalized" none (some a2.outcome) s3
          | none => s3
        else s
      let s5 := { s4 with intraday :=
          { s4.intraday with next_idx := idx + 1, last_processed_id := some aid } }
      (s5, some aid)
    | none => (s, none)
  else (s, none)

/-- `POST /simulate/tick_today`: initialize the intraday queue, pop/settle the
next appointment, and once the queue is exhausted run the end-of-day fill.
Returns the processed appointment id, if any. -/
def simulate_tick_today (now : ℤ) (s : EngineState) : EngineState × Option String :=
  let t := s.todayIndex
  let s := init_intraday_for_today s
  let total := s.intraday.order.length
  let step := tickProcess now t s
  let s2 := step.1
  let s3 :=
    if total ≤ s2.intraday.next_idx then end_of_day_fill_no_reply_eod now t s2 else s2
  (s3, step.2)

/-- Count of sms/call log entries for one appointment sent on one day (used to
count same-day comm firings). -/
def comm_log_count (s : EngineState) (aid : String) (day : ℤ) : ℕ :=
  (s.logs.filter (fun l =>
    l.appointment_id == aid && l.send_day_index == day &&
      (l.kind == "sms" || l.kind == "call"))).length

/-! ## Concrete demo fixtures used by witnesses and counterexamples -/

def demoAppt : Appointment :=
  { id := "a1", patient := { name := "Pat", age := 30 }, sched_time := 9, dayIndex := 1,
    static_risk := 3/10, live_adjusted_risk := 3/10,
    predicted_outcome_static := "attend", predicted_outcome_live := "attend",
    strategy_variant := some .A, strategy_applied_ids := ["st0"],
    comms_history := [], outcome := .unknown, live_adjustment_applied := false }

def demoStrategy : Strategy :=
  { id := "st0", name := "SameDay", is_default := false, segment := none,
    ab := { split := 1, A := { kind := .sms, days_of_action := [0] },
            B := { kind := .sms, days_of_action := [0] } } }

def demoState : EngineState :=
  { todayIndex := 0, appointments := [demoAppt], strategies := [demoStrategy],
    deployments := [], logs := [],
    intraday := { dayIndex := none, order := [], next_idx := 0, last_processed_id := none },
    same_day_comms_done := [], draws := [9/10, 9/10] }

def c2Appt : Appointment :=
  { demoAppt with
    id := "b1"
    dayIndex := 5
    live_adjusted_risk := 1/2
    static_risk := 1/2
    strategy_applied_ids := []
    live_adjustment_applied := true }

def c2State : EngineState :=
  { demoState with appointments := [c2Appt], strategies := [], draws := [9/10] }

def c3DoneState : EngineState :=
  { demoState with todayIndex := 1, same_day_comms_done := [1] }

/-- The deployment-invariant skeleton of an appointment: id, day index,
patient, and static risk (everything `deploy` reads but never writes). -/
def dSkel (a : Appointment) : String × ℤ × Patient × ℚ :=
  (a.id, a.dayIndex, a.patient, a.static_risk)

/-- The per-appointment assignment performed inside `deploy` (the body of
`deployApplyOne` once the draw is fixed). -/
def applyAssign (strat : Strategy) (r : ℚ) (a : Appointment) : Appointment :=
  { a with
    strategy_variant := some (pick_variant strat.ab.split r),
    strategy_applied_ids :=
      if strat.id ∈ a.strategy_applied_ids then a.strategy_applied_ids
      else a.strategy_applied_ids ++ [strat.id] }

/-- The strategies a deployment request resolves to (unknown ids dropped). -/
def chosenStrategies (s : EngineState) (ids : List String) : List Strategy :=
  ids.filterMap (findStrategy s)

/-- The non-default chosen strategies whose segment matches an appointment,
in deployment order. -/
def matchingNonDefaults (s : EngineState) (ids : List String) (a : Appointment) :
    List Strategy :=
  ((chosenStrategies s ids).filter (fun c => !c.is_default)).filter
    (fun st => in_segment a st)

/-- The loop invariant of `deploy`'s non-default phase, stated for the
appointment at position `i` of the store of the starting state `s` (with
`a0` its starting value) after the strategies whose segment matches `a0`
so far are `Mdone`: the deploy-invariant skeletons are untouched, the
matched set contains `a0.id` exactly when some processed strategy matched,
and the appointment itself carries the variant of the last matching
strategy (for some draw), all matching strategies' ids, and no other new
applied ids. -/
def DeployInv (s : EngineState) (i : ℕ) (a0 : Appointment)
    (Mdone : List Strategy) (sm : EngineState × List String) : Prop :=
  sm.1.appointments.map dSkel = s.appointments.map dSkel ∧
  (a0.id ∈ sm.2 ↔ Mdone ≠ []) ∧
  ∃ c, sm.1.appointments[i]? = some c ∧
    (Mdone = [] → c = a0) ∧
    (∀ stl, Mdone.getLast? = some stl →
      ∃ r, c.strategy_variant = some (pick_variant stl.ab.split r)) ∧
    (∀ st ∈ Mdone, st.id ∈ c.strategy_applied_ids) ∧
    (∀ x ∈ c.strategy_applied_ids,
      x ∈ a0.strategy_applied_ids ∨ ∃ st ∈ Mdone, x = st.id)

def c1s1 : Strategy :=
  { id := "s1", name := "S1", is_default := false, segment := none,
    ab := { split := 1, A := { kind := .sms, days_of_action := [-1] },
            B := { kind := .sms, days_of_action := [-1] } } }

def c1s2 : Strategy :=
  { c1s1 with id := "s2", ab := { c1s1.ab with split := 0 } }

def c1Appt : Appointment :=
  { demoAppt with dayIndex := 2, strategy_applied_ids := [], strategy_variant := none }

def c1State : EngineState :=
  { demoState with
    appointments := [c1Appt]
    strategies := [c1s1, c1s2]
    draws := [1/2, 1/2] }

def c8State : EngineState :=
  { demoState with strategies := [], appointments := [] }

def c8Patch : StrategyPatch :=
  { name := none, is_default := none, segment := none, ab_split := none,
    ab_A_kind := none, ab_A_days := none, ab_B_kind := none, ab_B_days := none }

def c9Appt : Appointment :=
  { demoAppt with id := "c1", outcome := .attended, strategy_applied_ids := [] }

def c9State : EngineState :=
  { demoState with appointments := [c9Appt], strategies := [], draws := [] }

/-- Some reply entry for appointment `aid` sent on day `t` is in the log. -/
def ReplyLogged (t : ℤ) (aid : String) (s : EngineState) : Prop :=
  ∃ e ∈ s.logs, e.send_day_index = t ∧ e.appointment_id = aid ∧ e.kind = "reply"

/-- The live risk of one appointment is inside `[0.01, 0.99]`. -/
def riskOK (a : Appointment) : Prop :=
  1/100 ≤ a.live_adjusted_risk ∧ a.live_adjusted_risk ≤ 99/100

instance : DecidablePred riskOK := fun a =>
  inferInstanceAs (Decidable (_ ∧ _))

/-- Every appointment in the store has its live risk inside `[0.01, 0.99]`. -/
def RiskInv (s : EngineState) : Prop := ∀ a ∈ s.appointments, riskOK a

instance (s : EngineState) : Decidable (RiskInv s) :=
  inferInstanceAs (Decidable (∀ a ∈ s.appointments, riskOK a))

/-! ## The engine operations bundled as one type (used to state invariants) -/

inductive EngineOp
  | scheduled (now t : ℤ)
  | sameDay (now : ℤ)
  | eodFillOp (now t : ℤ)
  | settleOp (d : ℤ)
  | computeLive (now : ℤ)
  | advanceOp (now : ℤ) (req : AdvanceReq)
  | tick (now : ℤ)
  | sendSms (now : ℤ) (aid tmpl : String)
  | callNow (now : ℤ) (aid : String)
  | patchOp (sid : String) (p : StrategyPatch)
  | deployTo (dep_id : String) (target : ℤ) (ids : List String)

/-- A pointwise simulation-step relation on the appointment store: ids are
unchanged positionally, and any already-settled outcome is unchanged. -/
def OutcomesMono (l l2 : List Appointment) : Prop :=
  l2.map (fun a => a.id) = l.map (fun a => a.id) ∧
  ∀ (i : ℕ) (h : i < l.length) (h2 : i < l2.length),
    (l.get ⟨i, h⟩).outcome ≠ Outcome.unknown →
      (l2.get ⟨i, h2⟩).outcome = (l.get ⟨i, h⟩).outcome

/-- Run one engine operation; a route that rejects its request (400/404)
returns the state unchanged, mirroring that the embedded routes reject before
mutating. -/
def applyOp : EngineOp → EngineState → EngineState
  | .scheduled now t, s => run_scheduled_comms_for_day now t s
  | .sameDay now, s => run_same_day_comms_once now s
  | .eodFillOp now t, s => end_of_day_fill_no_reply_eod now t s
  | .settleOp d, s => settle_outcomes_for_day d s
  | .computeLive now, s => compute_live_adjustments_for_today now s
  | .advanceOp now req, s =>
    match simulate_advance now req s with
    | .ok s2 => s2
    | .error _ => s
  | .tick now, s => (simulate_tick_today now s).1
  | .sendSms now aid tmpl, s =>
    match action_send_sms now aid tmpl s with
    | .ok s2 => s2
    | .error _ => s
  | .callNow now aid, s =>
    match action_call_now now aid s with
    | .ok s2 => s2
    | .error _ => s
  | .patchOp sid p, s =>
    match strategies_patch sid p s with
    | .ok s2 => s2
    | .error _ => s
  | .deployTo dep_id target ids, s => (deploy dep_id target ids s).1

/-! ## Arithmetic lemmas about clamping and rounding -/

theorem roundHalfEven_bounds (q : ℚ) : ⌊q⌋ ≤ roundHalfEven q ∧ roundHalfEven q ≤ ⌈q⌉ := by
  have hfl : (⌊q⌋ : ℚ) ≤ q := Int.floor_le q
  unfold roundHalfEven
  split_ifs with h1 h2 h3
  · exact ⟨le_refl _, Int.floor_le_ceil q⟩
  · have hlt : (⌊q⌋ : ℚ) < q := by linarith
    exact ⟨by omega, (Int.add_one_le_ceil_iff).2 hlt⟩
  · exact ⟨le_refl _, Int.floor_le_ceil q⟩
  · have hlt : (⌊q⌋ : ℚ) < q := by
      have : q - ⌊q⌋ = 1/2 := le_antisymm (not_lt.1 h2) (not_lt.1 h1)
      linarith
    exact ⟨by omega, (Int.add_one_le_ceil_iff).2 hlt⟩

theorem round3_mem (x : ℚ) (h1 : 1/100 ≤ x) (h2 : x ≤ 99/100) :
    1/100 ≤ round3 x ∧ round3 x ≤ 99/100 := by
  obtain ⟨hl, hr⟩ := roundHalfEven_bounds (1000 * x)
  have hfl : (10 : ℤ) ≤ ⌊(1000 : ℚ) * x⌋ := Int.le_floor.2 (by push_cast; linarith)
  have hcl : ⌈(1000 : ℚ) * x⌉ ≤ (990 : ℤ) := Int.ceil_le.2 (by push_cast; linarith)
  have h10 : (10 : ℤ) ≤ roundHalfEven (1000 * x) := le_trans hfl hl
  have h990 : roundHalfEven (1000 * x) ≤ (990 : ℤ) := le_trans hr hcl
  have h10q : (10 : ℚ) ≤ (roundHalfEven (1000 * x) : ℚ) := by exact_mod_cast h10
  have h990q : (roundHalfEven (1000 * x) : ℚ) ≤ (990 : ℚ) := by exact_mod_cast h990
  unfold round3
  constructor <;> [linarith; linarith]

theorem clamp01_mem (x : ℚ) : 1/100 ≤ clamp01 x ∧ clamp01 x ≤ 99/100 := by
  unfold clamp01
  refine ⟨le_max_left _ _, max_le (by norm_num) (min_le_left _ _)⟩

theorem round3_clamp01_mem (x : ℚ) :
    1/100 ≤ round3 (clamp01 x) ∧ round3 (clamp01 x) ≤ 99/100 :=
  round3_mem _ (clamp01_mem x).1 (clamp01_mem x).2

/-! ## C7: the live-risk histogram -/

/-- C7 counterexample: the claim says the last bucket also includes the value
1.0, but `_dist_from_values` counts every bucket half-open, so a value of
exactly 1.0 lands in no bucket: the counts for `[1.0]` are all zero, not
`[0,0,0,0,1]`. -/
theorem C7_histogram_cex :
    dist_counts [(1 : ℚ)] = [0, 0, 0, 0, 0] ∧ dist_counts [(1 : ℚ)] ≠ [0, 0, 0, 0, 1] := by
  constructor <;> with_unfolding_all decide

/-- C7 (amended): every bucket of the histogram is half-open `[lo, hi)` —
including the last, so a value of exactly 1.0 is counted in no bucket; each
value in `[0, 1)` is counted in exactly one of the five fixed buckets, and the
three appointments with live risks 0.15, 0.45, 0.85 yield bucket counts
`[1,0,1,0,1]`. -/
theorem C7_histogram_amended :
    (∀ v : ℚ, 0 ≤ v → v < 1 →
      BUCKETS.countP (fun b => decide (b.1 ≤ v) && decide (v < b.2)) = 1)
    ∧ BUCKETS.countP (fun b => decide (b.1 ≤ (1:ℚ)) && decide ((1:ℚ) < b.2)) = 0
    ∧ dist_counts [3/20, 9/20, 17/20] = [1, 0, 1, 0, 1] := by
  refine ⟨?_, by with_unfolding_all decide, by with_unfolding_all decide⟩
  intro v h0 h1
  simp only [BUCKETS, List.countP_cons, List.countP_nil, Bool.and_eq_true,
    decide_eq_true_eq]
  split_ifs <;> simp_all <;> linarith

/-- C7 witness: the amended theorem instantiated at the concrete value 0.5,
which lands in exactly one bucket. -/
theorem C7_histogram_witness :
    BUCKETS.countP (fun b => decide (b.1 ≤ (1/2 : ℚ)) && decide ((1/2 : ℚ) < b.2)) = 1 :=
  C7_histogram_amended.1 (1/2) (by norm_num) (by norm_num)

/-! ## Generic fold / state-frame infrastructure -/

theorem foldl_preserve {α β : Type _} (f : α → β → α) (P : α → Prop)
    (h : ∀ a b, P a → P (f a b)) : ∀ (l : List β) (a : α), P a → P (l.foldl f a) := by
  intro l
  induction l with
  | nil => intro a ha; exact ha
  | cons x xs ih => intro a ha; exact ih _ (h a x ha)

theorem takeDraw_eq (s : EngineState) :
    takeDraw s = (s.draws.headD 0, { s with draws := s.draws.tail }) := by
  rcases s with ⟨t, ap, st, de, lo, intr, dn, dr⟩
  cases dr <;> rfl

@[simp] theorem updateAppt_todayIndex (s : EngineState) (aid : String)
    (f : Appointment → Appointment) : (updateAppt s aid f).todayIndex = s.todayIndex := rfl

@[simp] theorem updateAppt_strategies (s : EngineState) (aid : String)
    (f : Appointment → Appointment) : (updateAppt s aid f).strategies = s.strategies := rfl

@[simp] theorem updateAppt_deployments (s : EngineState) (aid : String)
    (f : Appointment → Appointment) : (updateAppt s aid f).deployments = s.deployments := rfl

@[simp] theorem updateAppt_logs (s : EngineState) (aid : String)
    (f : Appointment → Appointment) : (updateAppt s aid f).logs = s.logs := rfl

@[simp] theorem updateAppt_intraday (s : EngineState) (aid : String)
    (f : Appointment → Appointment) : (updateAppt s aid f).intraday = s.intraday := rfl

@[simp] theorem updateAppt_same_day_comms_done (s : EngineState) (aid : String)
    (f : Appointment → Appointment) :
    (updateAppt s aid f).same_day_comms_done = s.same_day_comms_done := rfl

@[simp] theorem updateAppt_draws (s : EngineState) (aid : String)
    (f : Appointment → Appointment) : (updateAppt s aid f).draws = s.draws := rfl

@[simp] theorem updateAppt_appointments (s : EngineState) (aid : String)
    (f : Appointment → Appointment) :
    (updateAppt s aid f).appointments =
      s.appointments.map (fun a => if a.id == aid then f a else a) := rfl

@[simp] theorem log_event_todayIndex (now d : ℤ) (aid pn k : String)
    (v : Option Variant) (m : String) (r : Option String) (e : Option Outcome)
    (s : EngineState) : (log_event now d aid pn k v m r e s).todayIndex = s.todayIndex := rfl

@[simp] theorem log_event_appointments (now d : ℤ) (aid pn k : String)
    (v : Option Variant) (m : String) (r : Option String) (e : Option Outcome)
    (s : EngineState) :
    (log_event now d aid pn k v m r e s).appointments = s.appointments := rfl

@[simp] theorem log_event_strategies (now d : ℤ) (aid pn k : String)
    (v : Option Variant) (m : String) (r : Option String) (e : Option Outcome)
    (s : EngineState) : (log_event now d aid pn k v m r e s).strategies = s.strategies := rfl

@[simp] theorem log_event_deployments (now d : ℤ) (aid pn k : String)
    (v : Option Variant) (m : String) (r : Option String) (e : Option Outcome)
    (s : EngineState) :
    (log_event now d aid pn k v m r e s).deployments = s.deployments := rfl

@[simp] theorem log_event_intraday (now d : ℤ) (aid pn k : String)
    (v : Option Variant) (m : String) (r : Option String) (e : Option Outcome)
    (s : EngineState) : (log_event now d aid pn k v m r e s).intraday = s.intraday := rfl

@[simp] theorem log_event_same_day_comms_done (now d : ℤ) (aid pn k : String)
    (v : Option Variant) (m : String) (r : Option String) (e : Option Outcome)
    (s : EngineState) :
    (log_event now d aid pn k v m r e s).same_day_comms_done = s.same_day_comms_done := rfl

@[simp] theorem log_event_draws (now d : ℤ) (aid pn k : String)
    (v : Option Variant) (m : String) (r : Option String) (e : Option Outcome)
    (s : EngineState) : (log_event now d aid pn k v m r e s).draws = s.draws := rfl

theorem fireSameDay_todayIndex (now t : ℤ) (aid : String) (s : EngineState)
    (sid : String) :
    (fireSameDayForStrategy now t aid s sid).todayIndex = s.todayIndex := by
  unfold fireSameDayForStrategy
  rcases findStrategy s sid with _ | strat <;> rcases findAppt s aid with _ | appt <;>
    simp <;> split_ifs <;> simp

theorem sameDayApptStep_todayIndex (now t : ℤ) (s : EngineState) (aid : String) :
    (sameDayApptStep now t s aid).todayIndex = s.todayIndex := by
  unfold sameDayApptStep
  rcases hfa : findAppt s aid with _ | appt
  · rfl
  · refine foldl_preserve _ (fun s2 : EngineState => s2.todayIndex = s.todayIndex)
      ?_ _ _ rfl
    intro a2 b2 hP2
    show (fireSameDayForStrategy now t aid a2 b2).todayIndex = s.todayIndex
    rw [fireSameDay_todayIndex]
    exact hP2

theorem run_same_day_todayIndex (now : ℤ) (s : EngineState) :
    (run_same_day_comms_once now s).todayIndex = s.todayIndex := by
  simp only [run_same_day_comms_once]
  split_ifs with h
  · rfl
  · dsimp only
    refine foldl_preserve _ (fun s2 : EngineState => s2.todayIndex = s.todayIndex)
      ?_ _ _ rfl
    intro a b hP
    show (sameDayApptStep now s.todayIndex a b).todayIndex = s.todayIndex
    rw [sameDayApptStep_todayIndex]
    exact hP

theorem init_intraday_todayIndex (s : EngineState) :
    (init_intraday_for_today s).todayIndex = s.todayIndex := by
  simp only [init_intraday_for_today]
  split_ifs <;> rfl

theorem compute_live_todayIndex (now : ℤ) (s : EngineState) :
    (compute_live_adjustments_for_today now s).todayIndex = s.todayIndex := by
  simp only [compute_live_adjustments_for_today]
  rw [init_intraday_todayIndex]
  dsimp only
  exact run_same_day_todayIndex now s

/-! ## Fold identity / establishment helpers -/

theorem foldl_id {α β : Type _} (f : α → β → α) (l : List β) (a : α)
    (h : ∀ b ∈ l, f a b = a) : l.foldl f a = a := by
  induction l with
  | nil => rfl
  | cons x xs ih =>
    rw [List.foldl_cons, h x (List.mem_cons_self x xs)]
    exact ih fun b hb => h b (List.mem_cons_of_mem x hb)

theorem foldl_establish {α β : Type _} (f : α → β → α) (Q : α → β → Prop)
    (hmono : ∀ a b b2, Q a b → Q (f a b2) b)
    (hstep : ∀ a b, Q (f a b) b) :
    ∀ (l : List β) (a : α), ∀ b ∈ l, Q (l.foldl f a) b := by
  intro l
  induction l with
  | nil => intro a b hb; cases hb
  | cons x xs ih =>
    intro a b hb
    rcases List.mem_cons.1 hb with rfl | hb2
    · rw [List.foldl_cons]
      exact foldl_preserve f (fun a2 => Q a2 b) (fun a2 b2 hq => hmono a2 b b2 hq) xs
        (f a b) (hstep a b)
    · exact ih (f a x) b hb2

@[simp] theorem log_event_logs (now d : ℤ) (aid pn k : String)
    (v : Option Variant) (m : String) (r : Option String) (e : Option Outcome)
    (s : EngineState) :
    (log_event now d aid pn k v m r e s).logs = s.logs ++
      [{ ts := now, send_day_index := d,
         appointment_day_index :=
           match findAppt s aid with
           | some a => a.dayIndex
           | none => d,
         appointment_id := aid, patient_name := pn, kind := k, variant := v,
         message := m, reply := r, extra_outcome := e }] := rfl

/-! ## C10: idempotence of the end-of-day no-reply fill -/

theorem eodStep_appointments (now t : ℤ) (s : EngineState) (aid : String) :
    (eodStep now t s aid).appointments = s.appointments := by
  simp only [eodStep]
  split_ifs with h
  · rfl
  · rcases hfa : findAppt s aid with _ | appt
    · rfl
    · simp

theorem eodStep_logs_extend (now t : ℤ) (s : EngineState) (aid : String) :
    ∃ extra, (eodStep now t s aid).logs = s.logs ++ extra ∧
      ∀ e ∈ extra, e.kind = "reply" ∧ e.send_day_index = t ∧ e.appointment_id = aid := by
  simp only [eodStep]
  split_ifs with h
  · exact ⟨[], by simp, by simp⟩
  · rcases hfa : findAppt s aid with _ | appt
    · exact ⟨[], by simp, by simp⟩
    · refine ⟨_, log_event_logs _ _ _ _ _ _ _ _ _ _, ?_⟩
      intro e he
      rw [List.mem_singleton] at he
      subst he
      exact ⟨rfl, rfl, rfl⟩

theorem eodFill_appointments (now t : ℤ) (s : EngineState) :
    (end_of_day_fill_no_reply_eod now t s).appointments = s.appointments := by
  unfold end_of_day_fill_no_reply_eod
  refine foldl_preserve _ (fun s2 : EngineState => s2.appointments = s.appointments)
    ?_ _ _ rfl
  intro a b hP
  show (eodStep now t a b).appointments = s.appointments
  rw [eodStep_appointments]
  exact hP

theorem eodFill_logs_shape (now t : ℤ) (s : EngineState) :
    ∃ extra, (end_of_day_fill_no_reply_eod now t s).logs = s.logs ++ extra ∧
      ∀ e ∈ extra, e.kind = "reply" := by
  unfold end_of_day_fill_no_reply_eod
  refine foldl_preserve _
    (fun s2 : EngineState => ∃ extra, s2.logs = s.logs ++ extra ∧
      ∀ e ∈ extra, e.kind = "reply") ?_ _ _ ⟨[], by simp, by simp⟩
  intro a b hP
  obtain ⟨ex1, hex1, hprop1⟩ := hP
  obtain ⟨ex2, hex2, hprop2⟩ := eodStep_logs_extend now t a b
  refine ⟨ex1 ++ ex2, ?_, ?_⟩
  · show (eodStep now t a b).logs = s.logs ++ (ex1 ++ ex2)
    rw [hex2, hex1, List.append_assoc]
  · intro e he
    rcases List.mem_append.1 he with h1 | h2
    · exact hprop1 e h1
    · exact (hprop2 e h2).1

theorem eodStep_establishes (now t : ℤ) (s : EngineState) (aid : String) :
    ReplyLogged t aid (eodStep now t s aid) ∨ findAppt (eodStep now t s aid) aid = none := by
  simp only [eodStep]
  split_ifs with h
  · left
    obtain ⟨e, he, hp⟩ := List.any_eq_true.1 h
    simp only [Bool.and_eq_true, beq_iff_eq] at hp
    exact ⟨e, he, hp.1.1, hp.1.2, hp.2⟩
  · rcases hfa : findAppt s aid with _ | appt
    · right
      exact hfa
    · left
      exact ⟨_, List.mem_append_right _ (List.mem_singleton_self _), rfl, rfl, rfl⟩

theorem eodStep_mono (now t : ℤ) (a : EngineState) (b b2 : String)
    (h : ReplyLogged t b a ∨ findAppt a b = none) :
    ReplyLogged t b (eodStep now t a b2) ∨ findAppt (eodStep now t a b2) b = none := by
  rcases h with ⟨e, he, hp⟩ | hnone
  · left
    obtain ⟨ex, hex, _⟩ := eodStep_logs_extend now t a b2
    exact ⟨e, by rw [hex]; exact List.mem_append_left _ he, hp⟩
  · right
    show (eodStep now t a b2).appointments.find? (fun x => x.id == b) = none
    rw [eodStep_appointments]
    exact hnone

theorem sent_ids_stable (now t : ℤ) (s : EngineState) :
    sent_ids_for_day t (end_of_day_fill_no_reply_eod now t s) = sent_ids_for_day t s := by
  obtain ⟨extra, hlog, hprop⟩ := eodFill_logs_shape now t s
  unfold sent_ids_for_day
  rw [hlog, List.filter_append]
  have hnil : (extra.filter (fun l =>
      l.send_day_index == t && (l.kind == "sms" || l.kind == "call"))) = [] := by
    rw [List.filter_eq_nil_iff]
    intro e he
    have hk := hprop e he
    have h1 : (("reply" : String) == "sms") = false := by decide
    have h2 : (("reply" : String) == "call") = false := by decide
    simp [hk, h1, h2]
  rw [hnil, List.append_nil]

/-- C10: the end-of-day no-reply fill is idempotent: a second run for the same
day appends nothing, because the `no_reply_eod` entries it appends are
themselves typed "reply" and therefore satisfy the any-reply check on the
repeat call (so the repeated invocations from exhausted intraday ticks and
from day advance are safe). -/
theorem C10_eod_fill_idempotent (now1 now2 t : ℤ) (s : EngineState) :
    end_of_day_fill_no_reply_eod now2 t (end_of_day_fill_no_reply_eod now1 t s)
      = end_of_day_fill_no_reply_eod now1 t s := by
  have hQ : ∀ aid ∈ sent_ids_for_day t s,
      ReplyLogged t aid (end_of_day_fill_no_reply_eod now1 t s) ∨
        findAppt (end_of_day_fill_no_reply_eod now1 t s) aid = none := by
    intro aid haid
    unfold end_of_day_fill_no_reply_eod
    exact foldl_establish (eodStep now1 t)
      (fun s2 b => ReplyLogged t b s2 ∨ findAppt s2 b = none)
      (fun a b b2 hq => eodStep_mono now1 t a b b2 hq)
      (fun a b => eodStep_establishes now1 t a b)
      _ s aid haid
  show (sent_ids_for_day t (end_of_day_fill_no_reply_eod now1 t s)).foldl
      (eodStep now2 t) (end_of_day_fill_no_reply_eod now1 t s)
    = end_of_day_fill_no_reply_eod now1 t s
  rw [sent_ids_stable now1 t s]
  refine foldl_id _ _ _ ?_
  intro aid haid
  rcases hQ aid haid with hrep | hnone
  · have hany : (end_of_day_fill_no_reply_eod now1 t s).logs.any
        (fun l => l.send_day_index == t && l.appointment_id == aid &&
          l.kind == "reply") = true := by
      obtain ⟨e, he, h1, h2, h3⟩ := hrep
      exact List.any_eq_true.2 ⟨e, he, by simp [h1, h2, h3]⟩
    simp only [eodStep, hany]
    simp
  · simp only [eodStep]
    split_ifs with hif
    · rfl
    · rw [hnone]

/-! ## C6: idempotence of the live-adjustment recompute -/

theorem map_id_of_mem {α : Type _} (f : α → α) (l : List α) (h : ∀ a ∈ l, f a = a) :
    l.map f = l := by
  induction l with
  | nil => rfl
  | cons x xs ih =>
    rw [List.map_cons, h x (List.mem_cons_self x xs),
      ih (fun a ha => h a (List.mem_cons_of_mem x ha))]

theorem run_same_day_noop (now : ℤ) (s : EngineState)
    (h : s.todayIndex ∈ s.same_day_comms_done) :
    run_same_day_comms_once now s = s := by
  simp only [run_same_day_comms_once]
  rw [if_pos h]

theorem run_same_day_done (now : ℤ) (s : EngineState) :
    s.todayIndex ∈ (run_same_day_comms_once now s).same_day_comms_done := by
  simp only [run_same_day_comms_once]
  split_ifs with h
  · exact h
  · simp

theorem adjustOne_skip (now t : ℤ) (L : List LogEntry) (a : Appointment)
    (h : a.dayIndex = t → a.live_adjustment_applied = true) :
    adjustOne now t L a = a := by
  have hg : (a.dayIndex != t || a.live_adjustment_applied) = true := by
    by_cases hd : a.dayIndex = t
    · simp [h hd]
    · simp [bne_iff_ne, hd]
  simp only [adjustOne]
  rw [if_pos hg]

theorem adjustOne_day_flag (now t : ℤ) (L : List LogEntry) (a : Appointment) :
    (adjustOne now t L a).dayIndex = a.dayIndex ∧
    ((adjustOne now t L a).dayIndex = t → (adjustOne now t L a).live_adjustment_applied = true) := by
  by_cases hg : (a.dayIndex != t || a.live_adjustment_applied) = true
  · simp only [adjustOne]
    rw [if_pos hg]
    refine ⟨rfl, ?_⟩
    intro hday
    rw [Bool.or_eq_true] at hg
    rcases hg with h1 | h2
    · rw [bne_iff_ne] at h1
      exact absurd hday h1
    · exact h2
  · simp only [adjustOne]
    rw [if_neg hg]
    exact ⟨rfl, fun _ => rfl⟩

theorem init_intraday_appointments (s : EngineState) :
    (init_intraday_for_today s).appointments = s.appointments := by
  simp only [init_intraday_for_today]
  split_ifs <;> rfl

theorem init_intraday_logs (s : EngineState) :
    (init_intraday_for_today s).logs = s.logs := by
  simp only [init_intraday_for_today]
  split_ifs <;> rfl

theorem init_intraday_same_day (s : EngineState) :
    (init_intraday_for_today s).same_day_comms_done = s.same_day_comms_done := by
  simp only [init_intraday_for_today]
  split_ifs <;> rfl

theorem init_intraday_idem (s : EngineState) :
    init_intraday_for_today (init_intraday_for_today s) = init_intraday_for_today s := by
  by_cases h1 : (s.intraday.dayIndex == some s.todayIndex && !s.intraday.order.isEmpty) = true
  · have hself : init_intraday_for_today s = s := by
      simp only [init_intraday_for_today]
      rw [if_pos h1]
    rw [hself, hself]
  · have hfresh : init_intraday_for_today s =
        { s with intraday :=
            { dayIndex := some s.todayIndex,
              order := (sortBySched (s.appointments.filter
                (fun a => a.dayIndex == s.todayIndex))).map (fun a => a.id),
              next_idx := 0, last_processed_id := none } } := by
      simp only [init_intraday_for_today]
      rw [if_neg h1]
    rw [hfresh]
    by_cases h2 : ((sortBySched (s.appointments.filter
        (fun a => a.dayIndex == s.todayIndex))).map (fun a => a.id)).isEmpty = true
    · simp only [init_intraday_for_today]
      rw [if_neg]
      simp [h2]
    · simp only [init_intraday_for_today]
      rw [if_pos]
      simp [h2]

theorem compute_live_eq (now : ℤ) (s : EngineState) :
    compute_live_adjustments_for_today now s =
      init_intraday_for_today
        { run_same_day_comms_once now s with
          appointments := (run_same_day_comms_once now s).appointments.map
            (adjustOne now s.todayIndex (run_same_day_comms_once now s).logs) } := rfl

theorem compute_live_done (now : ℤ) (s : EngineState) :
    s.todayIndex ∈ (compute_live_adjustments_for_today now s).same_day_comms_done := by
  rw [compute_live_eq, init_intraday_same_day]
  exact run_same_day_done now s

theorem compute_live_flags (now : ℤ) (s : EngineState) :
    ∀ a ∈ (compute_live_adjustments_for_today now s).appointments,
      a.dayIndex = s.todayIndex → a.live_adjustment_applied = true := by
  rw [compute_live_eq, init_intraday_appointments]
  intro a ha
  obtain ⟨b, _, rfl⟩ := List.mem_map.1 ha
  exact (adjustOne_day_flag now s.todayIndex _ b).2

/-- C6: running the live-adjustment recompute a second time within the same
simulated day is the identity: the per-day guard makes the same-day comm pass
a no-op and the per-appointment idempotence flag, set by the first run for
every current-day appointment, makes the second adjustment pass skip every
appointment, so no confirmation multiplier or silence lift is applied twice.
The wall-clock instants of the two calls (`now1`, `now2`) may differ. -/
theorem C6_live_adjust_idempotent (now1 now2 : ℤ) (s : EngineState) :
    compute_live_adjustments_for_today now2 (compute_live_adjustments_for_today now1 s)
      = compute_live_adjustments_for_today now1 s := by
  have ht3 : (compute_live_adjustments_for_today now1 s).todayIndex = s.todayIndex :=
    compute_live_todayIndex now1 s
  have hdone : (compute_live_adjustments_for_today now1 s).todayIndex ∈
      (compute_live_adjustments_for_today now1 s).same_day_comms_done := by
    rw [ht3]; exact compute_live_done now1 s
  have hnoop : run_same_day_comms_once now2 (compute_live_adjustments_for_today now1 s)
      = compute_live_adjustments_for_today now1 s :=
    run_same_day_noop now2 _ hdone
  have hmap : (compute_live_adjustments_for_today now1 s).appointments.map
      (adjustOne now2 (compute_live_adjustments_for_today now1 s).todayIndex
        (compute_live_adjustments_for_today now1 s).logs)
      = (compute_live_adjustments_for_today now1 s).appointments := by
    refine map_id_of_mem _ _ ?_
    intro a ha
    refine adjustOne_skip _ _ _ _ ?_
    intro hday
    exact compute_live_flags now1 s a ha (by rw [← ht3]; exact hday)
  rw [compute_live_eq now2 (compute_live_adjustments_for_today now1 s), hnoop, hmap]
  rw [show ({ compute_live_adjustments_for_today now1 s with
      appointments := (compute_live_adjustments_for_today now1 s).appointments })
      = compute_live_adjustments_for_today now1 s from rfl]
  rw [compute_live_eq now1 s]
  exact init_intraday_idem _

/-! ## C5: the clamping invariant -/

theorem RiskInv_of_appointments_eq {s1 s2 : EngineState}
    (h : s2.appointments = s1.appointments) (hs : RiskInv s1) : RiskInv s2 := by
  intro a ha
  rw [h] at ha
  exact hs a ha

theorem riskOK_apply_comms (a : Appointment) (k : CommKind) :
    riskOK (apply_comms_effect a k) := by
  unfold apply_comms_effect riskOK
  exact round3_clamp01_mem _

theorem RiskInv_updateAppt {s : EngineState} {aid : String} {f : Appointment → Appointment}
    (hs : RiskInv s) (hf : ∀ a, riskOK a → riskOK (f a)) : RiskInv (updateAppt s aid f) := by
  intro a ha
  rw [updateAppt_appointments] at ha
  obtain ⟨b, hb, rfl⟩ := List.mem_map.1 ha
  by_cases hid : (b.id == aid) = true
  · rw [if_pos hid]
    exact hf b (hs b hb)
  · rw [if_neg hid]
    exact hs b hb

theorem RiskInv_fireSameDay (now t : ℤ) (aid : String) (s : EngineState) (sid : String)
    (hs : RiskInv s) : RiskInv (fireSameDayForStrategy now t aid s sid) := by
  unfold fireSameDayForStrategy
  rcases h1 : findStrategy s sid with _ | strat <;>
    rcases h2 : findAppt s aid with _ | appt <;> try exact hs
  dsimp only
  split_ifs with hoff
  · refine RiskInv_of_appointments_eq (log_event_appointments _ _ _ _ _ _ _ _ _ _) ?_
    exact RiskInv_updateAppt hs (fun b _ => riskOK_apply_comms _ _)
  · exact hs

theorem RiskInv_sameDayApptStep (now t : ℤ) (s : EngineState) (aid : String)
    (hs : RiskInv s) : RiskInv (sameDayApptStep now t s aid) := by
  unfold sameDayApptStep
  rcases hfa : findAppt s aid with _ | appt
  · exact hs
  · exact foldl_preserve _ RiskInv
      (fun a2 b2 h2 => RiskInv_fireSameDay now t aid a2 b2 h2) _ _ hs

theorem RiskInv_run_same_day (now : ℤ) (s : EngineState) (hs : RiskInv s) :
    RiskInv (run_same_day_comms_once now s) := by
  simp only [run_same_day_comms_once]
  split_ifs with h
  · exact hs
  · refine RiskInv_of_appointments_eq (rfl) ?_
    exact foldl_preserve _ RiskInv
      (fun a2 b2 h2 => RiskInv_sameDayApptStep now s.todayIndex a2 b2 h2) _ _ hs

theorem riskOK_adjustOne (now t : ℤ) (L : List LogEntry) (a : Appointment)
    (ha : riskOK a) : riskOK (adjustOne now t L a) := by
  simp only [adjustOne]
  split_ifs with hg h1 h2
  · exact ha
  · exact round3_clamp01_mem _
  · exact round3_clamp01_mem _
  · exact ha

theorem RiskInv_compute_live (now : ℤ) (s : EngineState) (hs : RiskInv s) :
    RiskInv (compute_live_adjustments_for_today now s) := by
  rw [compute_live_eq]
  refine RiskInv_of_appointments_eq (init_intraday_appointments _) ?_
  intro a ha
  simp only at ha
  obtain ⟨b, hb, rfl⟩ := List.mem_map.1 ha
  exact riskOK_adjustOne _ _ _ b (RiskInv_run_same_day now s hs b hb)

theorem RiskInv_eodFill (now t : ℤ) (s : EngineState) (hs : RiskInv s) :
    RiskInv (end_of_day_fill_no_reply_eod now t s) :=
  RiskInv_of_appointments_eq (eodFill_appointments now t s) hs

theorem RiskInv_settleStep (d : ℤ) (s : EngineState) (aid : String) (hs : RiskInv s) :
    RiskInv (settleStep d s aid) := by
  unfold settleStep
  rcases hfa : findAppt s aid with _ | a
  · exact hs
  · dsimp only
    split_ifs with hcond
    · rw [takeDraw_eq]
      dsimp only
      refine RiskInv_updateAppt (RiskInv_of_appointments_eq rfl hs) ?_
      intro b hb
      exact hb
    · exact hs

theorem RiskInv_settle (d : ℤ) (s : EngineState) (hs : RiskInv s) :
    RiskInv (settle_outcomes_for_day d s) := by
  unfold settle_outcomes_for_day
  exact foldl_preserve _ RiskInv (fun a2 b2 h2 => RiskInv_settleStep d a2 b2 h2) _ _ hs

/-- C5 part for seeding: the heuristic fallback produces a clamped risk, so a
seeded appointment's static and initial live risk are in range. -/
theorem heuristic_predict_mem (f : Features) :
    1/100 ≤ heuristic_predict f ∧ heuristic_predict f ≤ 99/100 := by
  simp only [heuristic_predict]
  exact round3_clamp01_mem _

theorem riskOK_all_map_update {l : List Appointment} {f : Appointment → Appointment}
    {aid : String} (hl : ∀ a ∈ l, riskOK a) (hf : ∀ a, riskOK a → riskOK (f a)) :
    ∀ a ∈ l.map (fun a => if a.id == aid then f a else a), riskOK a := by
  intro a ha
  obtain ⟨b, hb, rfl⟩ := List.mem_map.1 ha
  by_cases hid : (b.id == aid) = true
  · rw [if_pos hid]
    exact hf b (hl b hb)
  · rw [if_neg hid]
    exact hl b hb

theorem RiskInv_fireScheduled (now t : ℤ) (aid : String) (s : EngineState) (sid : String)
    (hs : RiskInv s) : RiskInv (fireScheduled now t aid s sid) := by
  unfold fireScheduled
  rcases h1 : findStrategy s sid with _ | strat <;>
    rcases h2 : findAppt s aid with _ | appt <;> try exact hs
  dsimp only
  refine foldl_preserve _ RiskInv ?_ _ _ hs
  intro a2 b2 h3
  dsimp only
  split_ifs <;>
    first
      | exact h3
      | (intro x hx
         simp only [takeDraw_eq, log_event_appointments, updateAppt_appointments] at hx
         refine riskOK_all_map_update h3 ?_ x hx
         intro b _
         exact riskOK_apply_comms _ _)

theorem RiskInv_scheduledApptStep (now t : ℤ) (s : EngineState) (aid : String)
    (hs : RiskInv s) : RiskInv (scheduledApptStep now t s aid) := by
  unfold scheduledApptStep
  rcases hfa : findAppt s aid with _ | appt
  · exact hs
  · exact foldl_preserve _ RiskInv
      (fun a2 b2 h2 => RiskInv_fireScheduled now t aid a2 b2 h2) _ _ hs

theorem RiskInv_run_scheduled (now t : ℤ) (s : EngineState) (hs : RiskInv s) :
    RiskInv (run_scheduled_comms_for_day now t s) := by
  unfold run_scheduled_comms_for_day
  exact foldl_preserve _ RiskInv
    (fun a2 b2 h2 => RiskInv_scheduledApptStep now t a2 b2 h2) _ _ hs

theorem RiskInv_patch (sid : String) (p : StrategyPatch) (s s2 : EngineState)
    (h : strategies_patch sid p s = .ok s2) (hs : RiskInv s) : RiskInv s2 := by
  unfold strategies_patch at h
  rcases hfs : findStrategy s sid with _ | st
  · rw [hfs] at h
    cases h
  · rw [hfs] at h
    rw [Except.ok.injEq] at h
    subst h
    exact RiskInv_of_appointments_eq rfl hs

theorem RiskInv_send_sms (now : ℤ) (aid tmpl : String) (s s2 : EngineState)
    (h : action_send_sms now aid tmpl s = .ok s2) (hs : RiskInv s) : RiskInv s2 := by
  unfold action_send_sms at h
  rcases hfa : findAppt s aid with _ | appt
  · rw [hfa] at h
    cases h
  · rw [hfa] at h
    dsimp only at h
    rw [takeDraw_eq] at h
    dsimp only at h
    split_ifs at h with hy hn <;>
      (rw [Except.ok.injEq] at h
       subst h
       refine RiskInv_compute_live _ _ ?_
       intro x hx
       simp only [takeDraw_eq, log_event_appointments, updateAppt_appointments] at hx
       refine riskOK_all_map_update hs ?_ x hx
       intro b hb
       exact hb)

theorem RiskInv_call_now (now : ℤ) (aid : String) (s s2 : EngineState)
    (h : action_call_now now aid s = .ok s2) (hs : RiskInv s) : RiskInv s2 := by
  unfold action_call_now at h
  rcases hfa : findAppt s aid with _ | appt
  · rw [hfa] at h
    cases h
  · rw [hfa] at h
    dsimp only at h
    rw [Except.ok.injEq] at h
    subst h
    refine RiskInv_compute_live _ _ ?_
    intro x hx
    simp only [log_event_appointments, updateAppt_appointments] at hx
    refine riskOK_all_map_update hs ?_ x hx
    intro b hb
    exact hb

theorem RiskInv_advance (now : ℤ) (req : AdvanceReq) (s s2 : EngineState)
    (h : simulate_advance now req s = .ok s2) (hs : RiskInv s) : RiskInv s2 := by
  simp only [simulate_advance] at h
  split_ifs at h
  rw [Except.ok.injEq] at h
  subst h
  refine RiskInv_compute_live _ _ (RiskInv_of_appointments_eq rfl ?_)
  exact RiskInv_settle _ _ (RiskInv_eodFill _ _ _ (RiskInv_run_scheduled _ _ _ hs))

theorem RiskInv_tickProcess (now t : ℤ) (s : EngineState) (hs : RiskInv s) :
    RiskInv (tickProcess now t s).1 := by
  unfold tickProcess
  dsimp only
  split
  · split
    · dsimp only
      refine RiskInv_of_appointments_eq rfl ?_
      split_ifs with hunk
      · split <;>
          (intro x hx
           simp only [takeDraw_eq, log_event_appointments, updateAppt_appointments] at hx
           refine riskOK_all_map_update hs ?_ x hx
           intro b hb
           exact hb)
      · exact hs
    · exact hs
  · exact hs

theorem RiskInv_tick (now : ℤ) (s : EngineState) (hs : RiskInv s) :
    RiskInv (simulate_tick_today now s).1 := by
  have hinit : RiskInv (init_intraday_for_today s) :=
    RiskInv_of_appointments_eq (init_intraday_appointments s) hs
  have hstep : RiskInv (tickProcess now s.todayIndex (init_intraday_for_today s)).1 :=
    RiskInv_tickProcess now s.todayIndex _ hinit
  simp only [simulate_tick_today]
  split_ifs with hfin
  · exact RiskInv_eodFill _ _ _ hstep
  · exact hstep

theorem RiskInv_deployApplyOne (strat : Strategy) (s : EngineState) (aid : String)
    (hs : RiskInv s) : RiskInv (deployApplyOne strat s aid) := by
  unfold deployApplyOne
  rw [takeDraw_eq]
  dsimp only
  exact RiskInv_updateAppt (RiskInv_of_appointments_eq rfl hs) (fun b hb => hb)

theorem RiskInv_deploy (dep_id : String) (target : ℤ) (ids : List String)
    (s : EngineState) (hs : RiskInv s) : RiskInv (deploy dep_id target ids s).1 := by
  have hpair : RiskInv (((ids.filterMap (findStrategy s)).filter
      (fun c => !c.is_default)).foldl
      (fun sm st => deployNonDefaultPass target st sm) (s, ([] : List String))).1 := by
    refine foldl_preserve _ (fun sm : EngineState × List String => RiskInv sm.1) ?_ _ _ hs
    intro sm st hsm
    unfold deployNonDefaultPass
    dsimp only
    exact foldl_preserve _ RiskInv
      (fun a2 b2 h2 => RiskInv_deployApplyOne st a2 b2 h2) _ _ hsm
  have hdefault : ∀ (d : Strategy) (sm : EngineState × List String), RiskInv sm.1 →
      RiskInv (deployDefaultPass target d sm.2 sm.1) := by
    intro d sm hsm
    unfold deployDefaultPass
    exact foldl_preserve _ RiskInv
      (fun a2 b2 h2 => RiskInv_deployApplyOne d a2 b2 h2) _ _ hsm
  rcases hdef : (ids.filterMap (findStrategy s)).find? (fun c => c.is_default) with _ | d
  · refine RiskInv_of_appointments_eq ?_ hpair
    unfold deploy
    dsimp only
    rw [hdef]
  · refine RiskInv_of_appointments_eq ?_ (hdefault d _ hpair)
    unfold deploy
    dsimp only
    rw [hdef]

/-- C5: every engine operation preserves the clamping invariant, and the
heuristic risk provider used at seeding already produces a value in
`[0.01, 0.99]` (a seeded appointment starts with `live = static` equal to it). -/
theorem C5_risk_clamped :
    (∀ f : Features, 1/100 ≤ heuristic_predict f ∧ heuristic_predict f ≤ 99/100)
    ∧ (∀ (op : EngineOp) (s : EngineState), RiskInv s → RiskInv (applyOp op s)) := by
  refine ⟨heuristic_predict_mem, ?_⟩
  intro op s hs
  cases op with
  | scheduled now t => exact RiskInv_run_scheduled now t s hs
  | sameDay now => exact RiskInv_run_same_day now s hs
  | eodFillOp now t => exact RiskInv_eodFill now t s hs
  | settleOp d => exact RiskInv_settle d s hs
  | computeLive now => exact RiskInv_compute_live now s hs
  | advanceOp now req =>
    dsimp only [applyOp]
    rcases hadv : simulate_advance now req s with e | s2
    · exact hs
    · exact RiskInv_advance now req s s2 hadv hs
  | tick now => exact RiskInv_tick now s hs
  | sendSms now aid tmpl =>
    dsimp only [applyOp]
    rcases hact : action_send_sms now aid tmpl s with e | s2
    · exact hs
    · exact RiskInv_send_sms now aid tmpl s s2 hact hs
  | callNow now aid =>
    dsimp only [applyOp]
    rcases hact : action_call_now now aid s with e | s2
    · exact hs
    · exact RiskInv_call_now now aid s s2 hact hs
  | patchOp sid p =>
    dsimp only [applyOp]
    rcases hact : strategies_patch sid p s with e | s2
    · exact hs
    · exact RiskInv_patch sid p s s2 hact hs
  | deployTo dep_id target ids => exact RiskInv_deploy dep_id target ids s hs

/-- C5 witness: the bound on a concrete feature vector, and the invariant on
the demo state before and after one concrete operation (advancing the day,
which fires the demo strategy's comms and settles outcomes). -/
theorem C5_risk_clamped_witness :
    (1/100 ≤ heuristic_predict
        { age := 30, prev_no_shows := 2, distance_km := 5, slot_hour := 8,
          new_patient := true }
      ∧ heuristic_predict
        { age := 30, prev_no_shows := 2, distance_km := 5, slot_hour := 8,
          new_patient := true } ≤ 99/100)
    ∧ RiskInv (applyOp (.advanceOp 100 { toDate := none, toDayIndex := none }) demoState) :=
  ⟨C5_risk_clamped.1 _,
   C5_risk_clamped.2 _ demoState (by with_unfolding_all decide)⟩

/-! ## C9: outcome monotonicity -/

theorem OutcomesMono_refl (l : List Appointment) : OutcomesMono l l :=
  ⟨rfl, fun _ _ _ _ => rfl⟩

theorem OutcomesMono_of_eq {l l2 : List Appointment} (h : l2 = l) : OutcomesMono l l2 := by
  subst h
  exact OutcomesMono_refl _

theorem OutcomesMono_trans {l1 l2 l3 : List Appointment}
    (a : OutcomesMono l1 l2) (b : OutcomesMono l2 l3) : OutcomesMono l1 l3 := by
  obtain ⟨aids, aout⟩ := a
  obtain ⟨bids, bout⟩ := b
  refine ⟨bids.trans aids, ?_⟩
  intro i h h3 hne
  have hlen2 : i < l2.length := by
    have hc := congrArg List.length aids
    simp only [List.length_map] at hc
    omega
  have h1 := aout i h hlen2 hne
  have h2 := bout i hlen2 h3 (by rw [h1]; exact hne)
  rw [h2, h1]

theorem OutcomesMono_of_map {l : List Appointment} {f : Appointment → Appointment}
    (hid : ∀ a, (f a).id = a.id) (hout : ∀ a, (f a).outcome = a.outcome) :
    OutcomesMono l (l.map f) := by
  constructor
  · rw [List.map_map]
    exact List.map_congr_left (fun a _ => hid a)
  · intro i h h2 hne
    simp only [List.get_eq_getElem, List.getElem_map]
    exact hout _

/-- The update lambda of `updateAppt` preserves `OutcomesMono` as long as the
per-appointment function keeps both the id and the outcome. -/
theorem OutcomesMono_update {l : List Appointment} {aid : String}
    {f : Appointment → Appointment}
    (hid : ∀ a, (f a).id = a.id) (hout : ∀ a, (f a).outcome = a.outcome) :
    OutcomesMono l (l.map (fun a => if a.id == aid then f a else a)) := by
  refine OutcomesMono_of_map ?_ ?_ <;> intro a <;> by_cases h : (a.id == aid) = true <;>
    simp [h, hid, hout]

theorem findAppt_mem {s : EngineState} {aid : String} {a : Appointment}
    (h : findAppt s aid = some a) : a ∈ s.appointments := by
  unfold findAppt at h
  exact List.mem_of_find?_eq_some h

theorem findAppt_beq {s : EngineState} {aid : String} {a : Appointment}
    (h : findAppt s aid = some a) : (a.id == aid) = true := by
  unfold findAppt at h
  exact @List.find?_some _ (fun x => x.id == aid) a _ h

/-- A settling update (`outcome := sampled`) guarded on the found appointment
still being unknown preserves `OutcomesMono`, given unique ids. -/
theorem OutcomesMono_settling {l0 : List Appointment} {s2 : EngineState}
    {aid : String} {a : Appointment} {g : Appointment → Appointment}
    (hnd : (l0.map (fun x => x.id)).Nodup)
    (hP : OutcomesMono l0 s2.appointments)
    (hfa : findAppt s2 aid = some a)
    (hunk : a.outcome = Outcome.unknown)
    (hgid : ∀ b, (g b).id = b.id) :
    OutcomesMono l0 (s2.appointments.map (fun b => if b.id == aid then g b else b)) := by
  refine OutcomesMono_trans hP ?_
  have hnd2 : (s2.appointments.map (fun x => x.id)).Nodup := by
    rw [hP.1]
    exact hnd
  constructor
  · rw [List.map_map]
    refine List.map_congr_left ?_
    intro b _
    by_cases h : (b.id == aid) = true
    · rw [Function.comp_apply, if_pos h, hgid]
    · rw [Function.comp_apply, if_neg h]
  · intro i h h2 hne
    simp only [List.get_eq_getElem, List.getElem_map]
    by_cases hid : ((s2.appointments.get ⟨i, h⟩).id == aid) = true
    · exfalso
      have hmem : s2.appointments.get ⟨i, h⟩ ∈ s2.appointments := List.get_mem _ _ _
      have hamem : a ∈ s2.appointments := findAppt_mem hfa
      have haid : (a.id == aid) = true := findAppt_beq hfa
      have hxa : s2.appointments.get ⟨i, h⟩ = a := by
        refine List.inj_on_of_nodup_map hnd2 hmem hamem ?_
        rw [beq_iff_eq] at hid haid
        rw [hid, haid]
      rw [hxa] at hne
      exact hne hunk
    · simp only [List.get_eq_getElem] at hid
      rw [if_neg hid]

theorem OutcomesMono_fireSameDay (now t : ℤ) (aid : String) (s : EngineState)
    (sid : String) :
    OutcomesMono s.appointments (fireSameDayForStrategy now t aid s sid).appointments := by
  unfold fireSameDayForStrategy
  rcases h1 : findStrategy s sid with _ | strat <;>
    rcases h2 : findAppt s aid with _ | appt <;> try exact OutcomesMono_refl _
  dsimp only
  split_ifs with hoff
  · rw [log_event_appointments, updateAppt_appointments]
    exact OutcomesMono_update (fun a => rfl) (fun a => rfl)
  · exact OutcomesMono_refl _

theorem OutcomesMono_fold {l0 : List Appointment} {β : Type _}
    (f : EngineState → β → EngineState)
    (hstep : ∀ s2 b, OutcomesMono s2.appointments (f s2 b).appointments)
    (l : List β) (s : EngineState) (hP : OutcomesMono l0 s.appointments) :
    OutcomesMono l0 (l.foldl f s).appointments := by
  refine foldl_preserve f (fun s2 => OutcomesMono l0 s2.appointments) ?_ l s hP
  intro a b hq
  exact OutcomesMono_trans hq (hstep a b)

theorem OutcomesMono_run_same_day (now : ℤ) (s : EngineState) :
    OutcomesMono s.appointments (run_same_day_comms_once now s).appointments := by
  simp only [run_same_day_comms_once]
  split_ifs with h
  · exact OutcomesMono_refl _
  · dsimp only
    refine OutcomesMono_fold _ ?_ _ _ (OutcomesMono_refl _)
    intro s2 aid
    unfold sameDayApptStep
    rcases hfa : findAppt s2 aid with _ | appt
    · exact OutcomesMono_refl _
    · exact OutcomesMono_fold _
        (fun s3 sid => OutcomesMono_fireSameDay now s.todayIndex aid s3 sid) _ _
        (OutcomesMono_refl _)

theorem OutcomesMono_fireScheduled (now t : ℤ) (aid : String) (s : EngineState)
    (sid : String) :
    OutcomesMono s.appointments (fireScheduled now t aid s sid).appointments := by
  unfold fireScheduled
  rcases h1 : findStrategy s sid with _ | strat <;>
    rcases h2 : findAppt s aid with _ | appt <;> try exact OutcomesMono_refl _
  dsimp only
  refine OutcomesMono_fold _ ?_ _ _ (OutcomesMono_refl _)
  intro s2 off
  dsimp only
  split_ifs <;>
    first
      | exact OutcomesMono_refl _
      | (simp only [takeDraw_eq, log_event_appointments, updateAppt_appointments]
         exact OutcomesMono_update (fun a => rfl) (fun a => rfl))

theorem OutcomesMono_run_scheduled (now t : ℤ) (s : EngineState) :
    OutcomesMono s.appointments (run_scheduled_comms_for_day now t s).appointments := by
  unfold run_scheduled_comms_for_day
  refine OutcomesMono_fold _ ?_ _ _ (OutcomesMono_refl _)
  intro s2 aid
  unfold scheduledApptStep
  rcases hfa : findAppt s2 aid with _ | appt
  · exact OutcomesMono_refl _
  · exact OutcomesMono_fold _
      (fun s3 sid => OutcomesMono_fireScheduled now t aid s3 sid) _ _
      (OutcomesMono_refl _)

theorem adjustOne_id_outcome (now t : ℤ) (L : List LogEntry) (a : Appointment) :
    (adjustOne now t L a).id = a.id ∧ (adjustOne now t L a).outcome = a.outcome := by
  by_cases hg : (a.dayIndex != t || a.live_adjustment_applied) = true
  · simp only [adjustOne]
    rw [if_pos hg]
    exact ⟨rfl, rfl⟩
  · simp only [adjustOne]
    rw [if_neg hg]
    exact ⟨rfl, rfl⟩

theorem OutcomesMono_compute_live (now : ℤ) (s : EngineState) :
    OutcomesMono s.appointments
      (compute_live_adjustments_for_today now s).appointments := by
  rw [compute_live_eq, init_intraday_appointments]
  dsimp only
  refine OutcomesMono_trans (OutcomesMono_run_same_day now s) ?_
  exact OutcomesMono_of_map (fun a => (adjustOne_id_outcome _ _ _ a).1)
    (fun a => (adjustOne_id_outcome _ _ _ a).2)

theorem OutcomesMono_settle {l0 : List Appointment} (d : ℤ) (s : EngineState)
    (hnd : (l0.map (fun x => x.id)).Nodup)
    (hP : OutcomesMono l0 s.appointments) :
    OutcomesMono l0 (settle_outcomes_for_day d s).appointments := by
  unfold settle_outcomes_for_day
  refine foldl_preserve _ (fun s2 : EngineState => OutcomesMono l0 s2.appointments) ?_ _ _ hP
  intro s2 aid hq
  unfold settleStep
  rcases hfa : findAppt s2 aid with _ | a
  · exact hq
  · dsimp only
    split_ifs with hcond
    · rw [takeDraw_eq]
      dsimp only
      simp only [updateAppt_appointments]
      have hunk : a.outcome = Outcome.unknown := by
        have h2 := (Bool.and_eq_true _ _ |>.mp hcond).2
        rwa [beq_iff_eq] at h2
      exact OutcomesMono_settling hnd hq hfa hunk (fun b => rfl)
    · exact hq

theorem OutcomesMono_eodFill (now t : ℤ) (s : EngineState) :
    OutcomesMono s.appointments
      (end_of_day_fill_no_reply_eod now t s).appointments :=
  OutcomesMono_of_eq (eodFill_appointments now t s)

theorem OutcomesMono_tickProcess {l0 : List Appointment} (now t : ℤ) (s : EngineState)
    (hnd : (l0.map (fun x => x.id)).Nodup)
    (hP : OutcomesMono l0 s.appointments) :
    OutcomesMono l0 (tickProcess now t s).1.appointments := by
  unfold tickProcess
  dsimp only
  split
  · split
    · dsimp only
      rename_i a hfa
      split_ifs with hunk
      · have hunk2 : a.outcome = Outcome.unknown := by rwa [beq_iff_eq] at hunk
        split
        · simp only [takeDraw_eq, log_event_appointments, updateAppt_appointments]
          exact OutcomesMono_settling hnd hP hfa hunk2 (fun b => rfl)
        · simp only [takeDraw_eq, updateAppt_appointments]
          exact OutcomesMono_settling hnd hP hfa hunk2 (fun b => rfl)
      · exact hP
    · exact hP
  · exact hP

theorem OutcomesMono_tick (now : ℤ) (s : EngineState)
    (hnd : (s.appointments.map (fun x => x.id)).Nodup) :
    OutcomesMono s.appointments (simulate_tick_today now s).1.appointments := by
  have hinit : OutcomesMono s.appointments (init_intraday_for_today s).appointments :=
    OutcomesMono_of_eq (init_intraday_appointments s)
  have hstep := OutcomesMono_tickProcess now s.todayIndex
    (init_intraday_for_today s) hnd hinit
  simp only [simulate_tick_today]
  split_ifs with hfin
  · exact OutcomesMono_trans hstep
      (OutcomesMono_eodFill now s.todayIndex _)
  · exact hstep

theorem OutcomesMono_advance (now : ℤ) (req : AdvanceReq) (s s2 : EngineState)
    (hnd : (s.appointments.map (fun x => x.id)).Nodup)
    (h : simulate_advance now req s = .ok s2) :
    OutcomesMono s.appointments s2.appointments := by
  simp only [simulate_advance] at h
  split_ifs at h
  rw [Except.ok.injEq] at h
  subst h
  refine OutcomesMono_trans ?_ (OutcomesMono_compute_live now _)
  refine OutcomesMono_trans ?_ (OutcomesMono_of_eq (rfl :
    ({ settle_outcomes_for_day s.todayIndex
        (end_of_day_fill_no_reply_eod now s.todayIndex
          (run_scheduled_comms_for_day now s.todayIndex s)) with
      todayIndex := s.todayIndex + 1 }).appointments = _))
  refine OutcomesMono_settle _ _ hnd ?_
  exact OutcomesMono_trans (OutcomesMono_run_scheduled now s.todayIndex s)
    (OutcomesMono_eodFill now s.todayIndex _)

/-- C9: once an appointment's outcome has left "unknown", neither end-of-day
settlement, nor an intraday tick, nor a whole day advance changes it again
(stated positionally; unique appointment ids, as the Python id-keyed dict
guarantees, are assumed). -/
theorem C9_outcome_monotone (now d : ℤ) (req : AdvanceReq) (s : EngineState) (i : ℕ)
    (hnd : (s.appointments.map (fun a => a.id)).Nodup)
    (h : i < s.appointments.length)
    (ho : (s.appointments.get ⟨i, h⟩).outcome ≠ Outcome.unknown) :
    (∀ h2 : i < (settle_outcomes_for_day d s).appointments.length,
      ((settle_outcomes_for_day d s).appointments.get ⟨i, h2⟩).outcome
        = (s.appointments.get ⟨i, h⟩).outcome)
    ∧ (∀ h3 : i < (simulate_tick_today now s).1.appointments.length,
      ((simulate_tick_today now s).1.appointments.get ⟨i, h3⟩).outcome
        = (s.appointments.get ⟨i, h⟩).outcome)
    ∧ (∀ s2, simulate_advance now req s = .ok s2 →
        ∀ h4 : i < s2.appointments.length,
          (s2.appointments.get ⟨i, h4⟩).outcome
            = (s.appointments.get ⟨i, h⟩).outcome) := by
  refine ⟨?_, ?_, ?_⟩
  · intro h2
    exact (OutcomesMono_settle d s hnd (OutcomesMono_refl _)).2 i h h2 ho
  · intro h3
    exact (OutcomesMono_tick now s hnd).2 i h h3 ho
  · intro s2 hadv h4
    exact (OutcomesMono_advance now req s s2 hnd hadv).2 i h h4 ho

/-- C9 witness: a concrete already-attended appointment is untouched by
settlement. -/
theorem C9_outcome_monotone_witness :
    ((settle_outcomes_for_day 1 c9State).appointments.get
        ⟨0, by with_unfolding_all decide⟩).outcome = Outcome.attended := by
  have h2 := (C9_outcome_monotone 100 1 { toDate := none, toDayIndex := none } c9State 0
      (by with_unfolding_all decide) (by with_unfolding_all decide)
      (by with_unfolding_all decide)).1 (by with_unfolding_all decide)
  exact h2.trans (by with_unfolding_all decide)

/-! ## C1: deployment machinery -/

theorem deployApplyOne_eq (strat : Strategy) (s : EngineState) (aid : String) :
    deployApplyOne strat s aid =
      updateAppt { s with draws := s.draws.tail } aid
        (applyAssign strat (s.draws.headD 0)) := by
  unfold deployApplyOne applyAssign
  rw [takeDraw_eq]

theorem get_map_update {l : List Appointment} {aid : String}
    {f : Appointment → Appointment} {i : ℕ} (h : i < l.length)
    (h2 : i < (l.map (fun a => if a.id == aid then f a else a)).length) :
    (l.map (fun a => if a.id == aid then f a else a)).get ⟨i, h2⟩
      = if ((l.get ⟨i, h⟩).id == aid) = true then f (l.get ⟨i, h⟩)
        else l.get ⟨i, h⟩ := by
  simp [List.get_eq_getElem, List.getElem_map]

theorem dSkel_applyAssign (strat : Strategy) (r : ℚ) (a : Appointment) :
    dSkel (applyAssign strat r a) = dSkel a := rfl

theorem dSkel_map_update {l : List Appointment} {aid : String}
    {f : Appointment → Appointment} (hf : ∀ a, dSkel (f a) = dSkel a) :
    (l.map (fun a => if a.id == aid then f a else a)).map dSkel = l.map dSkel := by
  rw [List.map_map]
  refine List.map_congr_left ?_
  intro b _
  by_cases h : (b.id == aid) = true
  · rw [Function.comp_apply, if_pos h, hf]
  · rw [Function.comp_apply, if_neg h]

theorem deployApplyOne_dSkel (strat : Strategy) (s : EngineState) (aid : String) :
    (deployApplyOne strat s aid).appointments.map dSkel = s.appointments.map dSkel := by
  rw [deployApplyOne_eq, updateAppt_appointments]
  exact dSkel_map_update (fun a => rfl)

theorem foldl_applyOne_dSkel (strat : Strategy) (aids : List String) (s : EngineState) :
    ((aids.foldl (deployApplyOne strat) s).appointments).map dSkel
      = s.appointments.map dSkel := by
  refine foldl_preserve _
    (fun s2 : EngineState => s2.appointments.map dSkel = s.appointments.map dSkel)
    ?_ _ _ rfl
  intro a b hP
  show (deployApplyOne strat a b).appointments.map dSkel = s.appointments.map dSkel
  rw [deployApplyOne_dSkel]
  exact hP

theorem ids_map_of_dSkel_map {l l2 : List Appointment}
    (h : l2.map dSkel = l.map dSkel) :
    l2.map (fun a => a.id) = l.map (fun a => a.id) := by
  have h2 := congrArg (List.map Prod.fst) h
  rwa [List.map_map, List.map_map] at h2

theorem length_of_dSkel_map {l l2 : List Appointment}
    (h : l2.map dSkel = l.map dSkel) : l2.length = l.length := by
  have h2 := congrArg List.length h
  simpa using h2

theorem dSkel_get_of_map {l l2 : List Appointment} (h : l2.map dSkel = l.map dSkel)
    {i : ℕ} (hi : i < l.length) (hi2 : i < l2.length) :
    dSkel (l2.get ⟨i, hi2⟩) = dSkel (l.get ⟨i, hi⟩) := by
  have h5 : (l2[i]?).map dSkel = (l[i]?).map dSkel := by
    rw [← List.getElem?_map, ← List.getElem?_map, h]
  rw [List.getElem?_eq_getElem (by simpa using hi2),
    List.getElem?_eq_getElem (by simpa using hi)] at h5
  simpa [List.get_eq_getElem] using h5

theorem in_segment_congr {a b : Appointment} (h : dSkel a = dSkel b) (st : Strategy) :
    in_segment a st = in_segment b st := by
  unfold in_segment
  have hp : a.patient = b.patient := congrArg (fun x => x.2.2.1) h
  have hr : a.static_risk = b.static_risk := congrArg (fun x => x.2.2.2) h
  rw [hp, hr]

theorem dayIndex_of_dSkel {a b : Appointment} (h : dSkel a = dSkel b) :
    a.dayIndex = b.dayIndex := congrArg (fun x => x.2.1) h

theorem id_of_dSkel {a b : Appointment} (h : dSkel a = dSkel b) :
    a.id = b.id := congrArg (fun x => x.1) h

theorem applyAssign_variant (strat : Strategy) (r : ℚ) (a : Appointment) :
    (applyAssign strat r a).strategy_variant
      = some (pick_variant strat.ab.split r) := rfl

theorem applyAssign_id_mem (strat : Strategy) (r : ℚ) (a : Appointment) :
    strat.id ∈ (applyAssign strat r a).strategy_applied_ids := by
  unfold applyAssign
  dsimp only
  by_cases h : strat.id ∈ a.strategy_applied_ids
  · rw [if_pos h]
    exact h
  · rw [if_neg h]
    exact List.mem_append_right _ (List.mem_singleton_self _)

theorem applyAssign_applied_grow (strat : Strategy) (r : ℚ) (a : Appointment)
    {x : String} (hx : x ∈ a.strategy_applied_ids) :
    x ∈ (applyAssign strat r a).strategy_applied_ids := by
  unfold applyAssign
  dsimp only
  by_cases h : strat.id ∈ a.strategy_applied_ids
  · rw [if_pos h]
    exact hx
  · rw [if_neg h]
    exact List.mem_append_left _ hx

theorem applyAssign_applied_from (strat : Strategy) (r : ℚ) (a : Appointment)
    {x : String} (hx : x ∈ (applyAssign strat r a).strategy_applied_ids) :
    x ∈ a.strategy_applied_ids ∨ x = strat.id := by
  unfold applyAssign at hx
  dsimp only at hx
  by_cases h : strat.id ∈ a.strategy_applied_ids
  · rw [if_pos h] at hx
    exact Or.inl hx
  · rw [if_neg h] at hx
    rcases List.mem_append.1 hx with h1 | h2
    · exact Or.inl h1
    · exact Or.inr (List.mem_singleton.1 h2)

theorem applyAssign_id (strat : Strategy) (r : ℚ) (a : Appointment) :
    (applyAssign strat r a).id = a.id := rfl

theorem getElem_q_of_dSkel_map {l l2 : List Appointment}
    (h : l2.map dSkel = l.map dSkel) {i : ℕ} {a : Appointment}
    (ha : l[i]? = some a) : ∃ c, l2[i]? = some c ∧ dSkel c = dSkel a := by
  have h5 : (l2[i]?).map dSkel = (l[i]?).map dSkel := by
    rw [← List.getElem?_map, ← List.getElem?_map, h]
  rw [ha] at h5
  rcases h6 : l2[i]? with _ | c
  · rw [h6] at h5
    exact Option.noConfusion h5
  · rw [h6] at h5
    exact ⟨c, rfl, Option.some.inj h5⟩

theorem mem_of_getElem_q {l : List Appointment} {i : ℕ} {a : Appointment}
    (h : l[i]? = some a) : a ∈ l := by
  rcases List.getElem?_eq_some.1 h with ⟨hb, hv⟩
  exact hv ▸ List.getElem_mem hb

theorem foldl_preserve_mem {α β : Type _} (f : α → β → α) (P : α → Prop)
    (l : List β) (hstep : ∀ a b, b ∈ l → P a → P (f a b)) (a : α) (ha : P a) :
    P (l.foldl f a) := by
  induction l generalizing a with
  | nil => exact ha
  | cons x xs ih =>
    exact ih (fun a b hb => hstep a b (List.mem_cons_of_mem _ hb)) _
      (hstep a x (List.mem_cons_self _ _) ha)

theorem deployApplyOne_getElem_q (strat : Strategy) (s : EngineState)
    (aid : String) (i : ℕ) :
    (deployApplyOne strat s aid).appointments[i]?
      = (s.appointments[i]?).map
          (fun a => if a.id == aid then applyAssign strat (s.draws.headD 0) a
            else a) := by
  rw [deployApplyOne_eq, updateAppt_appointments]
  exact List.getElem?_map _ _ _

theorem foldl_applyOne_not_mem (strat : Strategy) (aids : List String)
    (s : EngineState) {i : ℕ} {c : Appointment}
    (hc : s.appointments[i]? = some c) (hni : c.id ∉ aids) :
    (aids.foldl (deployApplyOne strat) s).appointments[i]? = some c := by
  refine foldl_preserve_mem _ (fun s2 : EngineState => s2.appointments[i]? = some c)
    aids ?_ _ hc
  intro s2 aid hmem hP
  rw [deployApplyOne_getElem_q, hP]
  have hne : ¬ ((c.id == aid) = true) := by
    rw [beq_iff_eq]
    intro he
    exact hni (he ▸ hmem)
  show some (if (c.id == aid) = true then
      applyAssign strat (s2.draws.headD 0) c else c) = some c
  rw [if_neg hne]

theorem foldl_applyOne_mem (strat : Strategy) (aids : List String)
    (s : EngineState) {i : ℕ} {c : Appointment}
    (hc : s.appointments[i]? = some c) (hmem : c.id ∈ aids) (hnd : aids.Nodup) :
    ∃ r, (aids.foldl (deployApplyOne strat) s).appointments[i]?
      = some (applyAssign strat r c) := by
  rcases List.append_of_mem hmem with ⟨l1, l2, rfl⟩
  rw [List.nodup_append] at hnd
  obtain ⟨h1n, h2n, hdisj⟩ := hnd
  have hn2 : c.id ∉ l2 := (List.nodup_cons.1 h2n).1
  have hn1 : c.id ∉ l1 := fun h => hdisj h (List.mem_cons_self _ _)
  rw [List.foldl_append, List.foldl_cons]
  have h1 : (l1.foldl (deployApplyOne strat) s).appointments[i]? = some c :=
    foldl_applyOne_not_mem strat l1 s hc hn1
  refine ⟨(l1.foldl (deployApplyOne strat) s).draws.headD 0, ?_⟩
  have h2 : (deployApplyOne strat (l1.foldl (deployApplyOne strat) s)
      c.id).appointments[i]?
      = some (applyAssign strat ((l1.foldl (deployApplyOne strat) s).draws.headD 0)
          c) := by
    rw [deployApplyOne_getElem_q, h1]
    simp
  refine foldl_applyOne_not_mem strat l2 _ h2 ?_
  rw [applyAssign_id]
  exact hn2

theorem ids_nodup_of_dSkel_map {s : EngineState} {S : EngineState}
    (hskel : S.appointments.map dSkel = s.appointments.map dSkel)
    (hnd : (s.appointments.map (fun a => a.id)).Nodup) :
    (S.appointments.map (fun a => a.id)).Nodup := by
  rw [ids_map_of_dSkel_map hskel]
  exact hnd

theorem pass_ids_nodup {s : EngineState} {S : EngineState}
    (hskel : S.appointments.map dSkel = s.appointments.map dSkel)
    (hnd : (s.appointments.map (fun a => a.id)).Nodup)
    (pred : Appointment → Bool) :
    (((S.appointments.filter pred).map (fun a => a.id))).Nodup :=
  List.Nodup.sublist ((List.filter_sublist _).map _)
    (ids_nodup_of_dSkel_map hskel hnd)

theorem mem_pass_ids {s : EngineState} {S : EngineState}
    (hskel : S.appointments.map dSkel = s.appointments.map dSkel)
    (hnd : (s.appointments.map (fun a => a.id)).Nodup)
    {i : ℕ} {c : Appointment} (hc : S.appointments[i]? = some c)
    (pred : Appointment → Bool) :
    c.id ∈ (S.appointments.filter pred).map (fun a => a.id) ↔ pred c = true := by
  have hcm : c ∈ S.appointments := mem_of_getElem_q hc
  constructor
  · intro h
    rcases List.mem_map.1 h with ⟨b, hb, hbid⟩
    rcases List.mem_filter.1 hb with ⟨hbm, hbp⟩
    have hbc : b = c :=
      List.inj_on_of_nodup_map (ids_nodup_of_dSkel_map hskel hnd) hbm hcm hbid
    exact hbc ▸ hbp
  · intro h
    exact List.mem_map.2 ⟨c, List.mem_filter.2 ⟨hcm, h⟩, rfl⟩

theorem deployNonDefaultPass_eq (target : ℤ) (strat : Strategy)
    (sm : EngineState × List String) :
    deployNonDefaultPass target strat sm =
      ((((sm.1.appointments.filter
          (fun a => a.dayIndex == target && in_segment a strat)).map
            (fun a => a.id)).foldl (deployApplyOne strat) sm.1),
       sm.2 ++ (sm.1.appointments.filter
          (fun a => a.dayIndex == target && in_segment a strat)).map
            (fun a => a.id)) := rfl

theorem deployDefaultPass_eq (target : ℤ) (strat : Strategy)
    (matched : List String) (s : EngineState) :
    deployDefaultPass target strat matched s =
      ((s.appointments.filter
          (fun a => a.dayIndex == target && !(matched.contains a.id))).map
            (fun a => a.id)).foldl (deployApplyOne strat) s := rfl

theorem deploy_appointments_eq (dep_id : String) (target : ℤ) (ids : List String)
    (s : EngineState) :
    (deploy dep_id target ids s).1.appointments =
      (match (chosenStrategies s ids).find? (fun c : Strategy => c.is_default) with
       | some d => deployDefaultPass target d
           (((chosenStrategies s ids).filter (fun c : Strategy => !c.is_default)).foldl
             (fun sm st => deployNonDefaultPass target st sm) (s, [])).2
           (((chosenStrategies s ids).filter (fun c : Strategy => !c.is_default)).foldl
             (fun sm st => deployNonDefaultPass target st sm) (s, [])).1
       | none => (((chosenStrategies s ids).filter (fun c : Strategy => !c.is_default)).foldl
             (fun sm st => deployNonDefaultPass target st sm) (s, [])).1).appointments
    := rfl

theorem deploy_appointments_none (dep_id : String) (target : ℤ) (ids : List String)
    (s : EngineState)
    (h : (chosenStrategies s ids).find? (fun c => c.is_default) = none) :
    (deploy dep_id target ids s).1.appointments =
      (((chosenStrategies s ids).filter (fun c => !c.is_default)).foldl
        (fun sm st => deployNonDefaultPass target st sm) (s, [])).1.appointments := by
  rw [deploy_appointments_eq, h]

theorem deploy_appointments_some (dep_id : String) (target : ℤ) (ids : List String)
    (s : EngineState) (d : Strategy)
    (h : (chosenStrategies s ids).find? (fun c => c.is_default) = some d) :
    (deploy dep_id target ids s).1.appointments =
      (deployDefaultPass target d
        (((chosenStrategies s ids).filter (fun c => !c.is_default)).foldl
          (fun sm st => deployNonDefaultPass target st sm) (s, [])).2
        (((chosenStrategies s ids).filter (fun c => !c.is_default)).foldl
          (fun sm st => deployNonDefaultPass target st sm) (s, [])).1).appointments := by
  rw [deploy_appointments_eq, h]

theorem matchingNonDefaults_eq (s : EngineState) (ids : List String)
    (a0 : Appointment) :
    matchingNonDefaults s ids a0 =
      ((chosenStrategies s ids).filter (fun c => !c.is_default)).filter
        (fun st => in_segment a0 st) := rfl

theorem deployInv_init (s : EngineState) (i : ℕ) (a0 : Appointment)
    (h0 : s.appointments[i]? = some a0) :
    DeployInv s i a0 [] (s, []) := by
  unfold DeployInv
  refine ⟨rfl, by simp, a0, h0, fun _ => rfl, ?_, ?_, ?_⟩
  · intro stl hstl
    exact absurd hstl (by simp)
  · intro st hst
    exact absurd hst (List.not_mem_nil _)
  · intro x hx
    exact Or.inl hx

theorem pass_inv (s : EngineState) (target : ℤ) (i : ℕ) (a0 : Appointment)
    (h0 : s.appointments[i]? = some a0)
    (hnd : (s.appointments.map (fun a => a.id)).Nodup)
    (hday : a0.dayIndex = target)
    (strat : Strategy) (Mdone : List Strategy) (sm : EngineState × List String)
    (h : DeployInv s i a0 Mdone sm) :
    DeployInv s i a0
      (Mdone ++ (if in_segment a0 strat = true then [strat] else []))
      (deployNonDefaultPass target strat sm) := by
  unfold DeployInv at h
  obtain ⟨hskel, hm, c, hc, hnil, hlast, hmemids, hfrom⟩ := h
  obtain ⟨c2, hc2, hcs2⟩ := getElem_q_of_dSkel_map hskel h0
  have hcc : c2 = c := Option.some.inj (hc2.symm.trans hc)
  have hcs : dSkel c = dSkel a0 := hcc ▸ hcs2
  have hcid : c.id = a0.id := id_of_dSkel hcs
  have hpredc : (c.dayIndex == target && in_segment c strat) = in_segment a0 strat := by
    rw [dayIndex_of_dSkel hcs, hday, in_segment_congr hcs strat]
    simp
  rw [deployNonDefaultPass_eq]
  by_cases hseg : in_segment a0 strat = true
  · rw [if_pos hseg]
    have hpc : (c.dayIndex == target && in_segment c strat) = true := by
      rw [hpredc]
      exact hseg
    have haid : c.id ∈ (sm.1.appointments.filter
        (fun a => a.dayIndex == target && in_segment a strat)).map
          (fun a => a.id) :=
      (mem_pass_ids hskel hnd hc _).2 hpc
    obtain ⟨r, hr⟩ := foldl_applyOne_mem strat _ sm.1 hc haid
      (pass_ids_nodup hskel hnd _)
    unfold DeployInv
    dsimp only
    refine ⟨?_, ?_, applyAssign strat r c, hr, ?_, ?_, ?_, ?_⟩
    · rw [foldl_applyOne_dSkel]
      exact hskel
    · constructor
      · intro hx
        simp
      · intro hx
        refine List.mem_append.2 (Or.inr ?_)
        rw [← hcid]
        exact haid
    · intro hcontra
      exact absurd hcontra (by simp)
    · intro stl hstl
      rw [List.getLast?_concat] at hstl
      cases Option.some.inj hstl
      exact ⟨r, rfl⟩
    · intro st hst
      rcases List.mem_append.1 hst with h1 | h1
      · exact applyAssign_applied_grow strat r c (hmemids st h1)
      · rw [List.mem_singleton.1 h1]
        exact applyAssign_id_mem strat r c
    · intro x hx
      rcases applyAssign_applied_from strat r c hx with h1 | h1
      · rcases hfrom x h1 with h2 | ⟨st, hst, h3⟩
        · exact Or.inl h2
        · exact Or.inr ⟨st, List.mem_append.2 (Or.inl hst), h3⟩
      · exact Or.inr ⟨strat, List.mem_append.2 (Or.inr (List.mem_singleton_self _)),
          h1⟩
  · rw [if_neg hseg, List.append_nil]
    have hsegf : in_segment a0 strat = false := by
      cases hb : in_segment a0 strat with
      | false => rfl
      | true => exact absurd hb hseg
    have hpc : (c.dayIndex == target && in_segment c strat) = false := by
      rw [hpredc]
      exact hsegf
    have haid : c.id ∉ (sm.1.appointments.filter
        (fun a => a.dayIndex == target && in_segment a strat)).map
          (fun a => a.id) := by
      intro hmem2
      rw [mem_pass_ids hskel hnd hc _] at hmem2
      rw [hpc] at hmem2
      exact Bool.false_ne_true hmem2
    have huntouched := foldl_applyOne_not_mem strat _ sm.1 hc haid
    unfold DeployInv
    dsimp only
    refine ⟨?_, ?_, c, huntouched, hnil, hlast, hmemids, hfrom⟩
    · rw [foldl_applyOne_dSkel]
      exact hskel
    · rw [List.mem_append]
      constructor
      · intro hx
        rcases hx with hx | hx
        · exact hm.1 hx
        · rw [← hcid] at hx
          exact absurd hx haid
      · intro hx
        exact Or.inl (hm.2 hx)

theorem ndfold_inv (s : EngineState) (target : ℤ) (i : ℕ) (a0 : Appointment)
    (h0 : s.appointments[i]? = some a0)
    (hnd : (s.appointments.map (fun a => a.id)).Nodup)
    (hday : a0.dayIndex = target) (L : List Strategy) :
    ∀ (Mdone : List Strategy) (sm : EngineState × List String),
      DeployInv s i a0 Mdone sm →
      DeployInv s i a0
        (Mdone ++ L.filter (fun st => in_segment a0 st))
        (L.foldl (fun sm st => deployNonDefaultPass target st sm) sm) := by
  induction L with
  | nil =>
    intro Mdone sm h
    simpa using h
  | cons st L2 ih =>
    intro Mdone sm h
    have h1 := pass_inv s target i a0 h0 hnd hday st Mdone sm h
    have h2 := ih (Mdone ++ (if in_segment a0 st = true then [st] else []))
      (deployNonDefaultPass target st sm) h1
    rw [List.foldl_cons, List.filter_cons]
    by_cases hseg : in_segment a0 st = true
    · rw [if_pos hseg]
      rw [if_pos hseg, List.append_assoc, List.singleton_append] at h2
      exact h2
    · rw [if_neg hseg]
      rw [if_neg hseg, List.append_nil] at h2
      exact h2

theorem foldl_applyOne_off_target {s S : EngineState} (target : ℤ)
    {i : ℕ} {a0 : Appointment}
    (hday : ¬ a0.dayIndex = target)
    (hskel : S.appointments.map dSkel = s.appointments.map dSkel)
    (hnd : (s.appointments.map (fun a => a.id)).Nodup)
    (hc : S.appointments[i]? = some a0)
    (rest : Appointment → Bool) (strat : Strategy) :
    ((((S.appointments.filter (fun a => a.dayIndex == target && rest a)).map
        (fun a => a.id)).foldl (deployApplyOne strat) S).appointments[i]?
      = some a0)
    ∧ (((S.appointments.filter (fun a => a.dayIndex == target && rest a)).map
        (fun a => a.id)).foldl (deployApplyOne strat) S).appointments.map dSkel
      = s.appointments.map dSkel := by
  have hpa : (a0.dayIndex == target && rest a0) = false := by
    rw [beq_eq_false_iff_ne.2 hday, Bool.false_and]
  have haid : a0.id ∉ (S.appointments.filter
      (fun a => a.dayIndex == target && rest a)).map (fun a => a.id) := by
    intro hmem2
    rw [mem_pass_ids hskel hnd hc _] at hmem2
    rw [hpa] at hmem2
    exact Bool.false_ne_true hmem2
  refine ⟨foldl_applyOne_not_mem strat _ S hc haid, ?_⟩
  rw [foldl_applyOne_dSkel]
  exact hskel

theorem ndfold_off_target (s : EngineState) (target : ℤ) (i : ℕ) (a0 : Appointment)
    (h0 : s.appointments[i]? = some a0)
    (hnd : (s.appointments.map (fun a => a.id)).Nodup)
    (hday : ¬ a0.dayIndex = target) (L : List Strategy) :
    ((L.foldl (fun sm st => deployNonDefaultPass target st sm)
        (s, [])).1.appointments.map dSkel = s.appointments.map dSkel)
    ∧ (L.foldl (fun sm st => deployNonDefaultPass target st sm)
        (s, [])).1.appointments[i]? = some a0 := by
  refine foldl_preserve _ (fun sm : EngineState × List String =>
      sm.1.appointments.map dSkel = s.appointments.map dSkel ∧
      sm.1.appointments[i]? = some a0) ?_ L (s, []) ⟨rfl, h0⟩
  intro sm st hP
  rw [deployNonDefaultPass_eq]
  dsimp only
  obtain ⟨hskel, hc⟩ := hP
  have h3 := foldl_applyOne_off_target target hday hskel hnd hc
    (fun a => in_segment a st) st
  exact ⟨h3.2, h3.1⟩

theorem deploy_off_target (dep_id : String) (target : ℤ) (ids : List String)
    (s : EngineState) (i : ℕ) (a0 : Appointment)
    (h0 : s.appointments[i]? = some a0)
    (hnd : (s.appointments.map (fun a => a.id)).Nodup)
    (hday : ¬ a0.dayIndex = target) :
    (deploy dep_id target ids s).1.appointments[i]? = some a0 := by
  have hoff := ndfold_off_target s target i a0 h0 hnd hday
    ((chosenStrategies s ids).filter (fun c => !c.is_default))
  rw [deploy_appointments_eq]
  rcases hdef : (chosenStrategies s ids).find? (fun c => c.is_default) with _ | d
  · rw [hdef]
    exact hoff.2
  · rw [hdef]
    dsimp only
    rw [deployDefaultPass_eq]
    exact (foldl_applyOne_off_target target hday hoff.1 hnd hoff.2 _ d).1

theorem deploy_on_target (dep_id : String) (target : ℤ) (ids : List String)
    (s : EngineState) (i : ℕ) (a0 : Appointment)
    (h0 : s.appointments[i]? = some a0)
    (hnd : (s.appointments.map (fun a => a.id)).Nodup)
    (hday : a0.dayIndex = target) :
    ∃ b, (deploy dep_id target ids s).1.appointments[i]? = some b ∧
      (∀ st ∈ matchingNonDefaults s ids a0, st.id ∈ b.strategy_applied_ids) ∧
      (∀ stl, (matchingNonDefaults s ids a0).getLast? = some stl →
        ∃ r, b.strategy_variant = some (pick_variant stl.ab.split r)) ∧
      (matchingNonDefaults s ids a0 ≠ [] →
        ∀ x ∈ b.strategy_applied_ids,
          x ∈ a0.strategy_applied_ids ∨ ∃ st ∈ matchingNonDefaults s ids a0,
            x = st.id) ∧
      (matchingNonDefaults s ids a0 = [] →
        ((chosenStrategies s ids).find? (fun c => c.is_default) = none → b = a0) ∧
        (∀ d, (chosenStrategies s ids).find? (fun c => c.is_default) = some d →
          ∃ r, b.strategy_variant = some (pick_variant d.ab.split r) ∧
            d.id ∈ b.strategy_applied_ids ∧
            ∀ x ∈ b.strategy_applied_ids,
              x ∈ a0.strategy_applied_ids ∨ x = d.id)) := by
  have hInv := ndfold_inv s target i a0 h0 hnd hday
    ((chosenStrategies s ids).filter (fun c => !c.is_default)) [] (s, [])
    (deployInv_init s i a0 h0)
  rw [List.nil_append] at hInv
  unfold DeployInv at hInv
  obtain ⟨hskel, hm, c, hc, hnil, hlast, hmemids, hfrom⟩ := hInv
  obtain ⟨c2, hc2, hcs2⟩ := getElem_q_of_dSkel_map hskel h0
  have hcc : c2 = c := Option.some.inj (hc2.symm.trans hc)
  have hcs : dSkel c = dSkel a0 := hcc ▸ hcs2
  have hcid : c.id = a0.id := id_of_dSkel hcs
  rw [matchingNonDefaults_eq]
  obtain ⟨o, hdef⟩ : ∃ o, (chosenStrategies s ids).find? (fun c => c.is_default) = o :=
    ⟨_, rfl⟩
  rcases o with _ | d
  · rw [deploy_appointments_none dep_id target ids s hdef]
    refine ⟨c, hc, hmemids, hlast, fun _ => hfrom, ?_⟩
    intro hM
    refine ⟨fun _ => hnil hM, ?_⟩
    intro d2 hd2
    rw [hdef] at hd2
    exact Option.noConfusion hd2
  · rw [deploy_appointments_some dep_id target ids s d hdef, deployDefaultPass_eq]
    by_cases hM : ((chosenStrategies s ids).filter
        (fun c => !c.is_default)).filter (fun st => in_segment a0 st) = []
    · have hnm : a0.id ∉ (((chosenStrategies s ids).filter
          (fun c => !c.is_default)).foldl
            (fun sm st => deployNonDefaultPass target st sm) (s, [])).2 :=
        fun hx => (hm.1 hx) hM
      have hca : c = a0 := hnil hM
      subst hca
      have hpc : (c.dayIndex == target &&
          !((((chosenStrategies s ids).filter (fun c => !c.is_default)).foldl
            (fun sm st => deployNonDefaultPass target st sm)
              (s, [])).2.contains c.id)) = true := by
        have hcont : (((chosenStrategies s ids).filter
            (fun c => !c.is_default)).foldl
              (fun sm st => deployNonDefaultPass target st sm)
                (s, [])).2.contains c.id = false := by
          cases hcb : (((chosenStrategies s ids).filter
              (fun c => !c.is_default)).foldl
                (fun sm st => deployNonDefaultPass target st sm)
                  (s, [])).2.contains c.id with
          | false => rfl
          | true => exact absurd (List.mem_of_elem_eq_true hcb) hnm
        rw [hday, hcont]
        simp
      have haid : c.id ∈ ((((chosenStrategies s ids).filter
          (fun c => !c.is_default)).foldl
            (fun sm st => deployNonDefaultPass target st sm)
              (s, [])).1.appointments.filter
          (fun a => a.dayIndex == target &&
            !((((chosenStrategies s ids).filter (fun c => !c.is_default)).foldl
              (fun sm st => deployNonDefaultPass target st sm)
                (s, [])).2.contains a.id))).map (fun a => a.id) :=
        (mem_pass_ids hskel hnd hc _).2 hpc
      obtain ⟨r, hr⟩ := foldl_applyOne_mem d _ _ hc haid
        (pass_ids_nodup hskel hnd _)
      refine ⟨applyAssign d r c, hr, ?_, ?_, ?_, ?_⟩
      · intro st hst
        rw [hM] at hst
        exact absurd hst (List.not_mem_nil _)
      · intro stl hstl
        rw [hM, List.getLast?_nil] at hstl
        exact Option.noConfusion hstl
      · intro hne
        exact absurd hM hne
      · intro _
        refine ⟨?_, ?_⟩
        · intro hnone
          rw [hdef] at hnone
          exact Option.noConfusion hnone
        · intro d2 hd2
          rw [hdef] at hd2
          cases Option.some.inj hd2
          refine ⟨r, rfl, applyAssign_id_mem d r c, ?_⟩
          intro x hx
          rcases applyAssign_applied_from d r c hx with h1 | h1
          · exact Or.inl h1
          · exact Or.inr h1
    · have hmem2 : a0.id ∈ (((chosenStrategies s ids).filter
          (fun c => !c.is_default)).foldl
            (fun sm st => deployNonDefaultPass target st sm) (s, [])).2 :=
        hm.2 hM
      have hpc : (c.dayIndex == target &&
          !((((chosenStrategies s ids).filter (fun c => !c.is_default)).foldl
            (fun sm st => deployNonDefaultPass target st sm)
              (s, [])).2.contains c.id)) = false := by
        have hcont : (((chosenStrategies s ids).filter
            (fun c => !c.is_default)).foldl
              (fun sm st => deployNonDefaultPass target st sm)
                (s, [])).2.contains c.id = true := by
          rw [hcid]
          exact List.elem_eq_true_of_mem hmem2
        rw [hcont]
        simp
      have haid : c.id ∉ ((((chosenStrategies s ids).filter
          (fun c => !c.is_default)).foldl
            (fun sm st => deployNonDefaultPass target st sm)
              (s, [])).1.appointments.filter
          (fun a => a.dayIndex == target &&
            !((((chosenStrategies s ids).filter (fun c => !c.is_default)).foldl
              (fun sm st => deployNonDefaultPass target st sm)
                (s, [])).2.contains a.id))).map (fun a => a.id) := by
        intro hmem3
        rw [mem_pass_ids hskel hnd hc _] at hmem3
        rw [hpc] at hmem3
        exact Bool.false_ne_true hmem3
      have huntouched := foldl_applyOne_not_mem d _ _ hc haid
      refine ⟨c, huntouched, hmemids, hlast, fun _ => hfrom, ?_⟩
      intro hM2
      exact absurd hM2 hM

/-- C1 counterexample: with two non-default strategies that both match the
same target-day appointment, the stored variant is drawn against the LAST
matching strategy's split (here split 0, so variant B), not the first
(whose draw 0.5 against split 1 would give variant A), and BOTH matching
strategies' ids are recorded as applied, not only the first's. -/
theorem C1_deploy_cex :
    ((deploy "d1" 2 ["s1", "s2"] c1State).1.appointments.map
        (fun a => (a.strategy_applied_ids, a.strategy_variant)))
      = [(["s1", "s2"], some Variant.B)]
    ∧ pick_variant c1s1.ab.split (1/2) = Variant.A := by
  constructor
  · with_unfolding_all rfl
  · with_unfolding_all rfl

/-- C1 (amended): deployment gives the non-default strategies no
first-match priority. For the appointment at position `i` of the store
(appointment ids unique, as in the Python store keyed by id): an
appointment off the target day is untouched; a target-day appointment gets
EVERY matching non-default chosen strategy's id recorded, its variant drawn
against the LAST matching non-default strategy's split, and no other id
added when some non-default strategy matches; the default chosen strategy
is applied (variant from its split, id recorded) exactly to target-day
appointments that no non-default strategy matched. -/
theorem C1_deploy_amended (dep_id : String) (target : ℤ) (ids : List String)
    (s : EngineState) (i : ℕ) (a0 : Appointment)
    (h0 : s.appointments[i]? = some a0)
    (hnd : (s.appointments.map (fun a => a.id)).Nodup) :
    ∃ b, (deploy dep_id target ids s).1.appointments[i]? = some b ∧
      (¬ a0.dayIndex = target → b = a0) ∧
      (a0.dayIndex = target →
        (∀ st ∈ matchingNonDefaults s ids a0, st.id ∈ b.strategy_applied_ids) ∧
        (∀ stl, (matchingNonDefaults s ids a0).getLast? = some stl →
          ∃ r, b.strategy_variant = some (pick_variant stl.ab.split r)) ∧
        (matchingNonDefaults s ids a0 ≠ [] →
          ∀ x ∈ b.strategy_applied_ids,
            x ∈ a0.strategy_applied_ids ∨ ∃ st ∈ matchingNonDefaults s ids a0,
              x = st.id) ∧
        (matchingNonDefaults s ids a0 = [] →
          ((chosenStrategies s ids).find? (fun c => c.is_default) = none →
            b = a0) ∧
          (∀ d, (chosenStrategies s ids).find? (fun c => c.is_default) = some d →
            ∃ r, b.strategy_variant = some (pick_variant d.ab.split r) ∧
              d.id ∈ b.strategy_applied_ids ∧
              ∀ x ∈ b.strategy_applied_ids,
                x ∈ a0.strategy_applied_ids ∨ x = d.id))) := by
  by_cases hday : a0.dayIndex = target
  · obtain ⟨b, hb, h1, h2, h3, h4⟩ :=
      deploy_on_target dep_id target ids s i a0 h0 hnd hday
    exact ⟨b, hb, fun hc => absurd hday hc, fun _ => ⟨h1, h2, h3, h4⟩⟩
  · exact ⟨a0, deploy_off_target dep_id target ids s i a0 h0 hnd hday,
      fun _ => rfl, fun hc => absurd hc hday⟩

/-- C1 witness: the amended theorem instantiated on the concrete two-strategy
deployment, both of whose matching ids end up recorded. -/
theorem C1_deploy_amended_witness :
    (c1State.appointments.map (fun a => a.id)).Nodup ∧
    ∃ b, (deploy "d1" 2 ["s1", "s2"] c1State).1.appointments[0]? = some b ∧
      "s1" ∈ b.strategy_applied_ids ∧ "s2" ∈ b.strategy_applied_ids := by
  refine ⟨by with_unfolding_all decide, ?_⟩
  obtain ⟨b, hb, -, h2⟩ := C1_deploy_amended "d1" 2 ["s1", "s2"] c1State 0 c1Appt
    (by with_unfolding_all rfl) (by with_unfolding_all decide)
  obtain ⟨hall, -, -, -⟩ := h2 (by with_unfolding_all decide)
  have hMeq : matchingNonDefaults c1State ["s1", "s2"] c1Appt = [c1s1, c1s2] := by
    with_unfolding_all rfl
  refine ⟨b, hb, ?_, ?_⟩
  · exact hall c1s1 (by rw [hMeq]; exact List.mem_cons_self _ _)
  · exact hall c1s2 (by
      rw [hMeq]
      exact List.mem_cons_of_mem _ (List.mem_cons_self _ _))

/-! ## C8: unknown strategy ids -/

theorem findStrategy_id {s : EngineState} {sid : String} {st : Strategy}
    (h : findStrategy s sid = some st) : st.id = sid := by
  unfold findStrategy at h
  have h2 := @List.find?_some _ (fun x => x.id == sid) st _ h
  rwa [beq_iff_eq] at h2

theorem chosen_ids (s : EngineState) (ids : List String) :
    (ids.filterMap (findStrategy s)).map (fun c => c.id)
      = ids.filter (fun i => (findStrategy s i).isSome) := by
  induction ids with
  | nil => rfl
  | cons i rest ih =>
    rcases h : findStrategy s i with _ | st
    · simp [List.filterMap_cons, List.filter_cons, h, ih]
    · simp [List.filterMap_cons, List.filter_cons, h, ih, findStrategy_id h]

theorem deploy_rec_spec (dep_id : String) (target : ℤ) (ids : List String)
    (s : EngineState) :
    (deploy dep_id target ids s).2 ∈ (deploy dep_id target ids s).1.deployments
    ∧ (deploy dep_id target ids s).2.strategy_ids
        = ids.filter (fun i => (findStrategy s i).isSome) := by
  unfold deploy
  dsimp only
  constructor
  · exact List.mem_append_right _ (List.mem_singleton_self _)
  · exact chosen_ids s ids

/-- C8 counterexample: `POST /deploy` with a single, unknown strategy id is
NOT rejected with 404 — it succeeds, silently drops the unknown id (the
record's strategy list is empty) and still creates a deployment record. -/
theorem C8_unknown_strategy_cex :
    ((deploy_route "dep-1" { target_day := 0, strategy_ids := ["nope"] }
        c8State).toOption.map
      (fun r => (r.2.strategy_ids, r.1.deployments.length))) = some ([], 1) := by
  with_unfolding_all decide

/-- C8 (amended): `PATCH /strategies/{id}` with an unknown id is rejected with
404 before any mutation, but `POST /deploy` does not reject unknown strategy
ids: whenever it succeeds, the stored deployment record lists exactly the
requested ids that exist in the strategy store — unknown ids are silently
dropped — and the record is appended to the deployments. -/
theorem C8_unknown_strategy_amended (sid : String) (p : StrategyPatch)
    (dep_id : String) (req : DeployReq) (s : EngineState) :
    (findStrategy s sid = none → strategies_patch sid p s = .error .notFound)
    ∧ (∀ s2 drec, deploy_route dep_id req s = .ok (s2, drec) →
        drec.strategy_ids = req.strategy_ids.filter (fun i => (findStrategy s i).isSome)
        ∧ drec ∈ s2.deployments) := by
  constructor
  · intro h
    unfold strategies_patch
    rw [h]
  · intro s2 drec h
    simp only [deploy_route] at h
    split_ifs at h
    rw [Except.ok.injEq] at h
    have h1 : s2 = (deploy dep_id req.target_day req.strategy_ids s).1 := by rw [h]
    have h2 : drec = (deploy dep_id req.target_day req.strategy_ids s).2 := by rw [h]
    subst h1
    subst h2
    exact ⟨(deploy_rec_spec _ _ _ s).2, (deploy_rec_spec _ _ _ s).1⟩

/-- C8 witness: patching a concrete unknown strategy id returns 404. -/
theorem C8_unknown_strategy_witness :
    strategies_patch "zz" c8Patch c8State = .error .notFound :=
  (C8_unknown_strategy_amended "zz" c8Patch "dep-1"
    { target_day := 0, strategy_ids := ["nope"] } c8State).1
    (by with_unfolding_all decide)

/-! ## C3: same-day (offset-0) firings -/

/-- C3 counterexample: one appointment on day 1 with an applied offset-0 sms
strategy.  Advancing into day 1 fires the comm once through the first-call
guard, and advancing again out of day 1 fires it a second time through the
scheduled sweep (offset `0 == 1 - 1`): the appointment receives TWO offset-0
comm log entries for day 1, not at most one. -/
theorem C3_same_day_twice_cex :
    ((simulate_advance 100 { toDate := none, toDayIndex := none } demoState).bind
        (fun s1 => simulate_advance 200 { toDate := none, toDayIndex := none } s1)).toOption.map
      (fun s2 => comm_log_count s2 "a1" 1) = some 2 := by
  with_unfolding_all decide

/-- C3 (amended): the first-call guard itself fires at most once per day —
once today is recorded in the done-set, `run_same_day_comms_once` is the
identity, and running it always records today — but the scheduled sweep run
during day advance fires offset-0 comms again for the day being closed, so an
appointment with an offset-0 strategy receives the communication twice on its
day (once on entry via the guard, once during advance via the sweep). -/
theorem C3_same_day_guard_amended (now : ℤ) (s : EngineState) :
    (s.todayIndex ∈ s.same_day_comms_done → run_same_day_comms_once now s = s)
    ∧ s.todayIndex ∈ (run_same_day_comms_once now s).same_day_comms_done :=
  ⟨run_same_day_noop now s, run_same_day_done now s⟩

/-- C3 witness: on a state whose done-set already holds today, the guard is a
no-op. -/
theorem C3_same_day_guard_witness :
    run_same_day_comms_once 100 c3DoneState = c3DoneState
    ∧ c3DoneState.todayIndex ∈
        (run_same_day_comms_once 100 c3DoneState).same_day_comms_done :=
  ⟨(C3_same_day_guard_amended 100 c3DoneState).1 (by with_unfolding_all decide),
   (C3_same_day_guard_amended 100 c3DoneState).2⟩

/-! ## C2: the manual comm actions -/

theorem map_live_update {l : List Appointment} {aid : String}
    {f : Appointment → Appointment}
    (hf : ∀ a, (f a).live_adjusted_risk = a.live_adjusted_risk) :
    (l.map (fun a => if a.id == aid then f a else a)).map
        (fun x => x.live_adjusted_risk)
      = l.map (fun x => x.live_adjusted_risk) := by
  rw [List.map_map]
  refine List.map_congr_left ?_
  intro b _
  by_cases h : (b.id == aid) = true
  · rw [Function.comp_apply, if_pos h, hf]
  · rw [Function.comp_apply, if_neg h]

/-- C2 counterexample: on a concrete appointment with live risk 0.5 (whose
per-day adjustment flag is set, so the recompute leaves it alone), a manual
`POST /actions/send_sms` leaves the live risk at 0.5, not at the claimed
`round(clamp(0.5 * 0.90), 3) = 0.45`: no comm factor is applied. -/
theorem C2_manual_actions_cex :
    ((action_send_sms 50 "b1" "hello" c2State).toOption.map
        (fun s2 => (findAppt s2 "b1").map (fun a => a.live_adjusted_risk)))
      = some (some (1/2))
    ∧ (1/2 : ℚ) ≠ round3 (clamp01 ((1/2) * SMS_FACTOR)) := by
  constructor <;> with_unfolding_all decide

/-- C2 (amended): the manual actions return 404 for an unknown appointment;
for a known one they do NOT apply the scheduled-comms risk factor — the state
handed to the live-adjustment recompute has every live risk unchanged —
`send_sms` logs the comm and runs the reply simulation (two log entries
exactly when the draw is below P(yes)+P(no) = 0.45, the reply being "yes"
below 0.35), `call_now` logs the comm with no reply simulation, and both end
by triggering the live-adjustment recompute. -/
theorem C2_manual_actions_amended (now : ℤ) (aid tmpl : String) (s : EngineState) :
    (findAppt s aid = none →
      action_send_sms now aid tmpl s = .error .notFound
      ∧ action_call_now now aid s = .error .notFound)
    ∧ (∀ a, findAppt s aid = some a →
      (∃ mid, action_send_sms now aid tmpl s
          = .ok (compute_live_adjustments_for_today now mid)
        ∧ mid.appointments.map (fun x => x.live_adjusted_risk)
            = s.appointments.map (fun x => x.live_adjusted_risk)
        ∧ mid.logs.length = s.logs.length +
            (if s.draws.headD 0 < REPLY_PROB_YES + REPLY_PROB_NO then 2 else 1))
      ∧ (∃ mid2, action_call_now now aid s
          = .ok (compute_live_adjustments_for_today now mid2)
        ∧ mid2.appointments.map (fun x => x.live_adjusted_risk)
            = s.appointments.map (fun x => x.live_adjusted_risk)
        ∧ mid2.logs.length = s.logs.length + 1)) := by
  constructor
  · intro h
    unfold action_send_sms action_call_now
    rw [h]
    exact ⟨rfl, rfl⟩
  · intro a ha
    constructor
    · unfold action_send_sms
      rw [ha]
      dsimp only
      rw [takeDraw_eq]
      dsimp only
      simp only [log_event_draws, updateAppt_draws]
      split_ifs with hy hn
      all_goals first
        | (exfalso
           exact hn (lt_of_lt_of_le hy (by norm_num [REPLY_PROB_YES, REPLY_PROB_NO])))
        | (refine ⟨_, rfl, ?_, ?_⟩ <;>
            first
              | (simp only [log_event_appointments, updateAppt_appointments]
                 exact map_live_update (fun b => rfl))
              | (simp only [log_event_logs, updateAppt_logs, List.length_append,
                   List.length_singleton]
                 try omega))
    · unfold action_call_now
      rw [ha]
      dsimp only
      refine ⟨_, rfl, ?_, ?_⟩
      · simp only [log_event_appointments, updateAppt_appointments]
        exact map_live_update (fun b => rfl)
      · simp only [log_event_logs, updateAppt_logs, List.length_append,
          List.length_singleton]

/-- C2 witness: the 404 branch of the amended theorem at a concrete unknown
appointment id. -/
theorem C2_manual_actions_witness :
    action_send_sms 50 "zz" "hello" c2State = .error .notFound
    ∧ action_call_now 50 "zz" c2State = .error .notFound :=
  (C2_manual_actions_amended 50 "zz" "hello" c2State).1 (by with_unfolding_all decide)

/-! ## C4: the day-advance restriction -/

/-- C4: a `POST /simulate/advance` whose `toDate` or `toDayIndex` resolves to
anything but `todayIndex + 1` is rejected with 400 before any state is
touched (the embedded route returns the error without entering the mutation
pipeline), and every successful advance sets `todayIndex` to exactly its
prior value plus one. -/
theorem C4_advance_plus_one (now : ℤ) (req : AdvanceReq) (s : EngineState) :
    ((∃ v, (req.toDate = some v ∨ req.toDayIndex = some v) ∧ v ≠ s.todayIndex + 1) →
      simulate_advance now req s = .error .badRequest)
    ∧ (∀ s2, simulate_advance now req s = .ok s2 → s2.todayIndex = s.todayIndex + 1) := by
  constructor
  · rintro ⟨v, hv | hv, hne⟩ <;> unfold simulate_advance
    · simp [hv, hne]
    · rcases hd : req.toDate with _ | w
      · simp [hd, hv, hne]
      · by_cases hw : w = s.todayIndex + 1
        · simp [hd, hv, hne, hw]
        · simp [hd, hw]
  · intro s2 h
    simp only [simulate_advance] at h
    split_ifs at h
    rw [Except.ok.injEq] at h
    subst h
    rw [compute_live_todayIndex]

/-- C4 witness: with one appointment seeded on day 1, requesting day 5 is
rejected, and the implicit `today + 1` request succeeds and moves the clock
from 0 to 1. -/
theorem C4_advance_plus_one_witness :
    (simulate_advance 100
        { toDate := none, toDayIndex := some 5 } demoState = .error .badRequest)
    ∧ ((simulate_advance 100 { toDate := none, toDayIndex := none } demoState).map
        (fun s2 => s2.todayIndex) = .ok (demoState.todayIndex + 1)) := by
  constructor
  · exact (C4_advance_plus_one 100 { toDate := none, toDayIndex := some 5 } demoState).1
      ⟨5, Or.inr rfl, by with_unfolding_all decide⟩
  · rcases hok : simulate_advance 100 { toDate := none, toDayIndex := none } demoState
      with e | s2
    · have hsucc : (simulate_advance 100
          { toDate := none, toDayIndex := none } demoState).isOk = true := by
        with_unfolding_all decide
      rw [hok] at hsucc
      simp [Except.isOk, Except.toBool] at hsucc
    · simp only [Except.map]
      rw [(C4_advance_plus_one 100 { toDate := none, toDayIndex := none } demoState).2
        s2 hok]

end ClinicSim
